import Mathlib

/-!
# ego_sdl_sample: the frame loop of `GameInstance`

A shallow embedding of `src/game_instance.cpp` and `src/main.cpp`.

* `float` is IEEE-754 binary32 with round-to-nearest, ties-to-even; every
  operation is rounded once to binary32 (no excess precision, no fused
  multiply-add).  A finite value is stored as the integer number of units of
  `2^-149` (the smallest subnormal), so that every binary32 value is an integer
  and the arithmetic can be evaluated exactly.  The sign of zero is not tracked.
* `unsigned` is a natural number below `2^32`; subtraction wraps.
* SDL, SDL_image, Ego and glm are collaborators whose code is not part of the
  repository: what they return is an input of the functions below, and what they
  are given is recorded (matrices stay symbolic expressions of the glm calls).
-/

set_option exponentiation.threshold 2048
set_option maxRecDepth 2000



namespace F32

/-- Auxiliary of `ilog2`: halve until below two, at most `fuel` times. -/
def ilog2Aux : ℕ → ℕ → ℕ
  | 0, _ => 0
  | fuel + 1, n => if n < 2 then 0 else ilog2Aux fuel (n / 2) + 1

/-- Position of the leading bit: `2 ^ ilog2 n ≤ n < 2 ^ (ilog2 n + 1)` for `n ≠ 0`. -/
def ilog2 (n : ℕ) : ℕ := ilog2Aux n n

/-- Round the number `N / 2 ^ k` (in units of `2^-149`) to the nearest binary32
magnitude, ties to even.  The result is again in units of `2^-149`.  The spacing
of the candidates is `2 ^ s` in the scale of `N`: `24` significant bits, but never
finer than one unit. -/
def roundNat (N k : ℕ) : ℕ :=
  let s := max (ilog2 N - 23) k
  let q := N / 2 ^ s
  let r := N % 2 ^ s
  (if 2 ^ s < 2 * r ∨ (2 * r = 2 ^ s ∧ q % 2 = 1) then q + 1 else q) * 2 ^ (s - k)

/-- A magnitude (in units of `2^-149`) with at most `24` significant bits. -/
def Rep (R : ℕ) : Prop := R % 2 ^ (ilog2 R - 23) = 0

instance (R : ℕ) : Decidable (Rep R) := by unfold Rep; infer_instance

end F32

/-- A binary32 value: a finite number `n * 2^-149`, an infinity, or NaN. -/
inductive F32 where
  | fin (n : ℤ)
  | inf (neg : Bool)
  | nan
deriving DecidableEq, Repr

namespace F32

/-- First magnitude that is no longer finite: `2^128`, in units of `2^-149`. -/
def overflowBound : ℕ := 2 ^ 128 * 2 ^ 149

/-- Attach a sign to a rounded magnitude; magnitudes from `2^128` on overflow. -/
def ofMag (neg : Bool) (R : ℕ) : F32 :=
  if overflowBound ≤ R then .inf neg else .fin (if neg then -(R : ℤ) else (R : ℤ))

/-- Binary32 addition. -/
def add : F32 → F32 → F32
  | .fin a, .fin b => ofMag (decide (a + b < 0)) (roundNat (a + b).natAbs 0)
  | .fin _, .inf s => .inf s
  | .inf s, .fin _ => .inf s
  | .inf s, .inf t => if s = t then .inf s else .nan
  | _, _ => .nan

/-- Binary32 multiplication: the exact product is in units of `2^-298`. -/
def mul : F32 → F32 → F32
  | .fin a, .fin b => ofMag (decide (a * b < 0)) (roundNat (a * b).natAbs 149)
  | .fin a, .inf s => if a = 0 then .nan else .inf (xor (decide (a < 0)) s)
  | .inf s, .fin b => if b = 0 then .nan else .inf (xor s (decide (b < 0)))
  | .inf s, .inf t => .inf (xor s t)
  | _, _ => .nan

/-- Round the fraction `num / den` (`den ≠ 0`) to the nearest binary32
magnitude.  The quotient is taken in quarter units: one guard bit and a sticky
bit, which is enough to round it correctly. -/
def roundRatio (num den : ℕ) : ℕ :=
  let P := num * 2 ^ 150
  roundNat (2 * (P / den) + (if P % den = 0 then 0 else 1)) 2

/-- Binary32 division. -/
def div : F32 → F32 → F32
  | .fin a, .fin b =>
    if b = 0 then (if a = 0 then .nan else .inf (decide (a < 0)))
    else ofMag (xor (decide (a < 0)) (decide (b < 0))) (roundRatio a.natAbs b.natAbs)
  | .fin _, .inf _ => .fin 0
  | .inf s, .fin b => .inf (xor s (decide (b < 0)))
  | _, _ => .nan

/-- Unary minus. -/
def neg : F32 → F32
  | .fin a => .fin (-a)
  | .inf s => .inf (!s)
  | .nan => .nan

/-- Conversion of an unsigned integer to binary32 (`static_cast<float>`). -/
def ofNat (n : ℕ) : F32 := ofMag false (roundNat (n * 2 ^ 149) 0)

/-- A non-negative decimal literal `num / den` converted to `float`: the
nearest binary32 value. -/
def lit (num den : ℕ) : F32 := ofMag false (roundRatio num den)

/-- The comparison `a <= b` of binary32 values; false when either is NaN. -/
def le : F32 → F32 → Prop
  | .fin a, .fin b => a ≤ b
  | .fin _, .inf s => s = false
  | .inf s, .fin _ => s = true
  | .inf s, .inf t => s = true ∨ t = false
  | _, _ => False

instance : LE F32 := ⟨le⟩

instance (a b : F32) : Decidable (a ≤ b) := by
  show Decidable (le a b)
  cases a <;> cases b <;> unfold le <;> infer_instance

/-- The exact value of a finite binary32 number (`0` for infinities and NaN). -/
def toRat : F32 → ℚ
  | .fin n => (n : ℚ) / 2 ^ 149
  | _ => 0

/-- A value the hardware can hold and that is not NaN: a finite number with at
most `24` significant bits below `2^128`, or an infinity. -/
def Valid : F32 → Prop
  | .fin a => Rep a.natAbs ∧ a.natAbs < overflowBound
  | .inf _ => True
  | .nan => False

instance (a : F32) : Decidable (Valid a) := by
  cases a <;> unfold Valid <;> infer_instance

/-- A finite value (neither infinity nor NaN). -/
def Finite : F32 → Prop
  | .fin _ => True
  | _ => False

instance (a : F32) : Decidable (Finite a) := by
  cases a <;> unfold Finite <;> infer_instance

end F32

/-! ## glm

The library is not part of the repository.  Vectors hold binary32 components;
a matrix is the expression of the glm calls that built it. -/

namespace glm

/-- The type `glm::vec3`. -/
structure vec3 where
  x : F32
  y : F32
  z : F32
deriving DecidableEq, Repr

/-- The type `glm::mat4`, as the expression that produced it: `glm::mat4(1.0F)`,
`glm::translate(v)`, `glm::rotate(angle, axis)` and the product `a * b`. -/
inductive mat4 where
  | identity
  | translate (v : vec3)
  | rotate (angle : F32) (axis : vec3)
  | mul (a b : mat4)
deriving DecidableEq, Repr

/-- The constant `glm::pi<float>()`: the literal
`3.14159265358979323846264338327950288` converted to `float`. -/
def pi : F32 := F32.lit 314159265358979323846264338327950288 (10 ^ 35)

end glm

/-! ## SDL and SDL_image -/

/-- The fields of `SDL_Event` that the program reads: `e.type` and
`e.window.event`. -/
structure SDL_Event where
  type : ℕ
  window_event : ℕ
deriving DecidableEq, Repr

/-- Event type `SDL_QUIT` (value from `SDL_events.h`). -/
def SDL_QUIT : ℕ := 0x100

/-- Event type `SDL_WINDOWEVENT` (value from `SDL_events.h`). -/
def SDL_WINDOWEVENT : ℕ := 0x200

/-- Window event id `SDL_WINDOWEVENT_SIZE_CHANGED` (value from `SDL_video.h`). -/
def SDL_WINDOWEVENT_SIZE_CHANGED : ℕ := 6

/-- Flag `IMG_INIT_PNG` (value from `SDL_image.h`). -/
def IMG_INIT_PNG : ℕ := 2

/-- A decoded image: the fields of `SDL_Surface` that the program reads. -/
structure SDL_Surface where
  w : ℤ
  h : ℤ
  pixels : List ℕ
deriving DecidableEq, Repr

/-! ## Ego -/

namespace Ego

/-- Texture filtering modes; the program only names `TEXTURE_FILTERING_LINEAR`. -/
inductive TextureFiltering where
  | TEXTURE_FILTERING_LINEAR
  | other (code : ℕ)
deriving DecidableEq, Repr

/-- Texture wrap modes; the program only names `TEXTURE_WRAP_REPEAT`. -/
inductive TextureWrap where
  | TEXTURE_WRAP_REPEAT
  | other (code : ℕ)
deriving DecidableEq, Repr

/-- The aggregate given to `NewTexture`:
`{filtering, wrapU, wrapV, width, height, data}`. -/
structure TextureCreateInfo where
  filtering : TextureFiltering
  wrapU : TextureWrap
  wrapV : TextureWrap
  width : ℤ
  height : ℤ
  data : Option (List ℕ)
deriving DecidableEq, Repr

/-- A texture object: what it was created with, and every `SetImage` call it
received since (`width`, `height`, `pixels`), oldest first. -/
structure Texture where
  info : TextureCreateInfo
  images : List (ℤ × ℤ × List ℕ)
deriving DecidableEq, Repr

/-- The renderer, as far as textures go: the textures created so far.  A texture
handle is the position of the texture in this list. -/
structure Renderer where
  textures : List Texture
deriving DecidableEq, Repr

/-- The call `renderer.NewTexture(info)`: a new texture with no image set; its
handle is returned. -/
def Renderer.NewTexture (r : Renderer) (info : TextureCreateInfo) : Renderer × ℕ :=
  ({ textures := r.textures ++ [{ info := info, images := [] }] }, r.textures.length)

/-- The call `tex->SetImage(w, h, pixels)` on the texture with handle `tex`. -/
def Renderer.SetImage (r : Renderer) (tex : ℕ) (w h : ℤ) (pixels : List ℕ) : Renderer :=
  { textures := r.textures.modify (fun t => { t with images := t.images ++ [(w, h, pixels)] }) tex }

/-- A viewport rectangle `{x, y, width, height}`: the four values that the
program hands to the scene. -/
structure Rect where
  x : ℤ
  y : ℤ
  w : ℤ
  h : ℤ
deriving DecidableEq, Repr

/-- The scene, as far as this program changes it after creation: its viewport. -/
structure Scene where
  viewport : Rect
deriving DecidableEq, Repr

/-- A mesh: the `transparent` flag and diffuse texture it was created with, and
its model matrix (`SetModelMat4`). -/
structure Mesh where
  transparent : Bool
  diffuse : ℕ
  model : glm.mat4
deriving DecidableEq, Repr

end Ego

/-! ## game_instance.cpp -/

/-- What the image collaborators answer: `IMG_Load(path)` and
`SDLU_SurfaceToRGBA32(image)` (declared in `sdl_utility.hpp`, which is not among
the sources); `none` is the null pointer. -/
structure ImageEnv where
  IMG_Load : String → Option SDL_Surface
  SDLU_SurfaceToRGBA32 : SDL_Surface → Option SDL_Surface

/-- The function `TextureFromPath(renderer, path)`: returns the renderer after
the calls and the handle of the texture. -/
def TextureFromPath (env : ImageEnv) (renderer : Ego.Renderer) (path : String) :
    Ego.Renderer × ℕ :=
  let (renderer, tex) := renderer.NewTexture
    { filtering := .TEXTURE_FILTERING_LINEAR, wrapU := .TEXTURE_WRAP_REPEAT,
      wrapV := .TEXTURE_WRAP_REPEAT, width := 0, height := 0, data := none }
  match env.IMG_Load path with
  | none => (renderer, tex)
  | some image =>
    match env.SDLU_SurfaceToRGBA32 image with
    | none => (renderer, tex)
    | some image => (renderer.SetImage tex image.w image.h image.pixels, tex)

/-- The constant `DEFAULT_WINDOW_WIDTH`. -/
def DEFAULT_WINDOW_WIDTH : ℤ := 800

/-- The constant `DEFAULT_WINDOW_HEIGHT`. -/
def DEFAULT_WINDOW_HEIGHT : ℤ := 800

/-- Calls that the frame loop makes and that the properties below talk about, in
the order they happen. -/
inductive Call where
  | OnEvent (e : SDL_Event)
  | Tick
  | SetViewport (r : Ego.Rect)
  | DrawAllScenes
  | SwapWindow
deriving DecidableEq, Repr

/-- The members of `GameInstance` (`then` is spelled `then_`).  The two arrays of
mesh pointers are given as the meshes pointed to, which are sixteen different
objects.  `calls` is the record of calls made so far. -/
structure GameInstance where
  exiting : Bool
  width : ℤ
  height : ℤ
  now : ℕ
  then_ : ℕ
  elapsed : F32
  rotation : F32
  renderer : Ego.Renderer
  scene : Ego.Scene
  alphaMeshes : Fin 8 → Ego.Mesh
  solidMeshes : Fin 8 → Ego.Mesh
  calls : List Call

/-- What the platform answers during the constructor: whether
`SDL_CreateWindow` and `SDL_GL_CreateContext` return a non-null pointer, the image
collaborators, and `SDL_GetTicks()`. -/
structure CtorEnv where
  windowCreated : Bool
  glContextCreated : Bool
  images : ImageEnv
  ticks : ℕ

/-- The two `std::runtime_error`s thrown by the constructor. -/
inductive CtorError where
  | unableToCreateWindow
  | unableToCreateGLContext
deriving DecidableEq, Repr

namespace GameInstance

/-- The constructor `GameInstance::GameInstance()` from the creation of the
renderer on, that is once the window and the GL context exist: the default
member initialisers, the scene, the two textures and the sixteen meshes. -/
def setup (env : CtorEnv) : GameInstance :=
  let renderer : Ego.Renderer := { textures := [] }
  let scene : Ego.Scene :=
    { viewport := ⟨0, 0, DEFAULT_WINDOW_WIDTH, DEFAULT_WINDOW_HEIGHT⟩ }
  let (renderer, eye) := TextureFromPath env.images renderer "eye.png"
  let alpha : Ego.Mesh := { transparent := true, diffuse := eye, model := .identity }
  let (renderer, zone) := TextureFromPath env.images renderer "zone.png"
  let solid : Ego.Mesh := { transparent := false, diffuse := zone, model := .identity }
  { exiting := false
    width := DEFAULT_WINDOW_WIDTH
    height := DEFAULT_WINDOW_HEIGHT
    now := env.ticks % 2 ^ 32
    then_ := env.ticks % 2 ^ 32
    elapsed := .fin 0
    rotation := .fin 0
    renderer := renderer
    scene := scene
    alphaMeshes := fun _ => alpha
    solidMeshes := fun _ => solid
    calls := [] }

/-- The constructor `GameInstance::GameInstance()`: it throws when the window
or the GL context cannot be created. -/
def ctor (env : CtorEnv) : Except CtorError GameInstance :=
  if !env.windowCreated then .error .unableToCreateWindow
  else if !env.glContextCreated then .error .unableToCreateGLContext
  else .ok (setup env)

/-- The axis `rot1` of `RefreshMeshes`: `{-0.5F, 1.0F, 0.0F}`. -/
def rot1 : glm.vec3 := ⟨F32.neg (F32.lit 5 10), F32.lit 1 1, F32.lit 0 1⟩

/-- The matrix `trans1` of `RefreshMeshes`: `glm::translate({0.0F, 0.0F, 4.0F})`. -/
def trans1 : glm.mat4 := .translate ⟨F32.lit 0 1, F32.lit 0 1, F32.lit 4 1⟩

/-- The axis `rot2` of `RefreshMeshes`: `{0.5F, 0.4F, 0.0F}`. -/
def rot2 : glm.vec3 := ⟨F32.lit 5 10, F32.lit 4 10, F32.lit 0 1⟩

/-- The matrix `trans2` of `RefreshMeshes`: `glm::translate({0.0F, 0.0F, -2.0F})`. -/
def trans2 : glm.mat4 := .translate ⟨F32.lit 0 1, F32.lit 0 1, F32.neg (F32.lit 2 1)⟩

/-- The method `GameInstance::RefreshMeshes()`: two loops over the indices
`0 .. size() - 1`, each setting the model matrix of the mesh at that index. -/
def RefreshMeshes (g : GameInstance) : GameInstance :=
  let alphaMeshes := (List.finRange 8).foldl (fun meshes i =>
    let angle := F32.add (F32.mul (F32.ofNat i.val)
      (F32.div (F32.mul glm.pi (F32.lit 2 1)) (F32.ofNat 8))) g.rotation
    let rotMat := glm.mat4.rotate angle rot1
    Function.update meshes i { meshes i with model := .mul rotMat trans1 }) g.alphaMeshes
  let solidMeshes := (List.finRange 8).foldl (fun meshes i =>
    let angle := F32.add (F32.mul (F32.ofNat i.val)
      (F32.div (F32.mul glm.pi (F32.lit 2 1)) (F32.ofNat 8))) g.rotation
    let rotMat := glm.mat4.rotate angle rot2
    Function.update meshes i { meshes i with model := .mul rotMat trans2 }) g.solidMeshes
  { g with alphaMeshes := alphaMeshes, solidMeshes := solidMeshes }

/-- The method `GameInstance::Tick()`; `ticks` is what `SDL_GetTicks()` returns.
The difference `now - then` is taken in `unsigned` arithmetic. -/
def Tick (ticks : ℕ) (g : GameInstance) : GameInstance :=
  let g := { g with calls := g.calls ++ [Call.Tick] }
  let g := { g with now := ticks % 2 ^ 32 }
  let diff := (g.now + 2 ^ 32 - g.then_ % 2 ^ 32) % 2 ^ 32
  let g := { g with elapsed := F32.mul (F32.ofNat diff) (F32.lit 1 1000) }
  let g := { g with rotation := F32.add g.rotation g.elapsed }
  let g := RefreshMeshes g
  { g with then_ := g.now }

/-- The method `GameInstance::OnEvent(e)`; `drawable` is the size that
`SDL_GL_GetDrawableSize` reports when it is asked. -/
def OnEvent (drawable : ℤ × ℤ) (e : SDL_Event) (g : GameInstance) : GameInstance :=
  let g := { g with calls := g.calls ++ [Call.OnEvent e] }
  let g := if e.type = SDL_QUIT then { g with exiting := true } else g
  if e.type = SDL_WINDOWEVENT ∧ e.window_event = SDL_WINDOWEVENT_SIZE_CHANGED then
    let g := { g with width := drawable.1, height := drawable.2 }
    { g with
      scene := { g.scene with viewport := ⟨0, 0, g.width, g.height⟩ },
      calls := g.calls ++ [Call.SetViewport ⟨0, 0, g.width, g.height⟩] }
  else g

end GameInstance

/-- One event returned by `SDL_PollEvent`, with the drawable size of the window
at that moment. -/
structure PolledEvent where
  event : SDL_Event
  drawable : ℤ × ℤ

/-- What the platform supplies to one iteration of the loop in `Run`: the
events that `SDL_PollEvent` returns before it returns `0`, and the value of
`SDL_GetTicks()` read by `Tick`. -/
structure Frame where
  events : List PolledEvent
  ticks : ℕ

namespace GameInstance

/-- The inner loop of `Run`: `OnEvent` on every event that `SDL_PollEvent`
returns. -/
def PollEvents (events : List PolledEvent) (g : GameInstance) : GameInstance :=
  events.foldl (fun g p => OnEvent p.drawable p.event g) g

/-- The body of the outer loop of `Run`: drain the events, `Tick`, draw, swap. -/
def RunBody (f : Frame) (g : GameInstance) : GameInstance :=
  let g := PollEvents f.events g
  let g := Tick f.ticks g
  let g := { g with calls := g.calls ++ [Call.DrawAllScenes] }
  { g with calls := g.calls ++ [Call.SwapWindow] }

/-- The method `GameInstance::Run()` on the frames the platform supplies.  The
result is `none` when the supplied frames end while the loop is still running. -/
def Run : List Frame → GameInstance → Option GameInstance
  | frames, g =>
    if g.exiting then some g
    else
      match frames with
      | [] => none
      | f :: frames => Run frames (RunBody f g)

/-- Iterations of the loop body on the given frames, without the loop test. -/
def RunBodies (frames : List Frame) (g : GameInstance) : GameInstance :=
  frames.foldl (fun g f => RunBody f g) g

/-- Consecutive calls of `Tick`, one for each value of `SDL_GetTicks()`. -/
def Ticks (ticks : List ℕ) (g : GameInstance) : GameInstance :=
  ticks.foldl (fun g t => Tick t g) g

end GameInstance

/-! ## The words of the specification -/

namespace Spec

/-- The elapsed time of a tick at `current` after a tick at `previous ≤ current`:
`(current - previous) * 0.001` in `float`. -/
def elapsed (previous current : ℕ) : F32 :=
  F32.mul (F32.ofNat (current - previous)) (F32.lit 1 1000)

/-- The elapsed times of the ticks at the timestamps `ts`, the preceding tick
being at `previous`. -/
def elapsedValues : ℕ → List ℕ → List F32
  | _, [] => []
  | previous, t :: ts => elapsed previous t :: elapsedValues t ts

/-- Timestamps that never decrease: `now ≥ then` at every tick, the first
`then` being `previous`. -/
def nonDecreasing : ℕ → List ℕ → Bool
  | _, [] => true
  | previous, t :: ts => decide (previous ≤ t) && nonDecreasing t ts

/-- The angle of the mesh with index `i` in a group of `N`:
`i * (2π / N) + rotation` in `float`. -/
def angle (N i : ℕ) (rotation : F32) : F32 :=
  F32.add (F32.mul (F32.ofNat i) (F32.div (F32.mul glm.pi (F32.lit 2 1)) (F32.ofNat N))) rotation

/-- The environment of a start at tick count `t0` in which everything succeeds
and no image can be decoded. -/
def startEnv (t0 : ℕ) : CtorEnv :=
  { windowCreated := true, glContextCreated := true,
    images := { IMG_Load := fun _ => none, SDLU_SurfaceToRGBA32 := fun _ => none },
    ticks := t0 }

/-- The quit event. -/
def quitEvent : SDL_Event := { type := SDL_QUIT, window_event := 0 }

/-- A window event announcing a changed size. -/
def resizeEvent : SDL_Event :=
  { type := SDL_WINDOWEVENT, window_event := SDL_WINDOWEVENT_SIZE_CHANGED }

/-- The calls that the dispatch of the given events makes: one `OnEvent` for
each, followed by one `SetViewport` when it announces a changed size. -/
def eventCalls : List PolledEvent → List Call
  | [] => []
  | p :: ps =>
    (if p.event.type = SDL_WINDOWEVENT ∧ p.event.window_event = SDL_WINDOWEVENT_SIZE_CHANGED then
        [Call.OnEvent p.event, Call.SetViewport ⟨0, 0, p.drawable.1, p.drawable.2⟩]
      else [Call.OnEvent p.event]) ++ eventCalls ps

/-- The sentence "once a quit event has been dispatched, `Run` performs no
`Tick`, no `DrawAllScenes` and no window swap", about a record of calls. -/
def NoFrameAfterQuit (calls : List Call) : Prop :=
  ∀ before after e, calls = before ++ Call.OnEvent e :: after → e.type = SDL_QUIT →
    Call.Tick ∉ after ∧ Call.DrawAllScenes ∉ after ∧ Call.SwapWindow ∉ after

/-- Tick counts of a run whose first tick comes after `2^29` ms (about six
days) and is followed by `64` ticks that are `16` ms apart. -/
def longPause : List ℕ := 2 ^ 29 :: (List.range 64).map (fun i => 2 ^ 29 + 16 * (i + 1))

/-- A frame in which the only pending event is the quit event; `Tick` reads
the tick count `16` in it. -/
def quitFrame : Frame := { events := [{ event := quitEvent, drawable := (800, 800) }], ticks := 16 }

end Spec

/-! ## main.cpp -/

/-- What the platform answers to `main`: the return values of `SDL_Init` and
`IMG_Init`, the environment of the constructor and the frames of `Run`. -/
structure MainEnv where
  SDL_Init : ℤ
  IMG_Init : ℕ
  ctor : CtorEnv
  frames : List Frame

/-- Calls made by `main`, in order. -/
inductive MainCall where
  | SDL_Init
  | IMG_Init
  | SDL_LogCritical
  | SDL_ShowSimpleMessageBox
  | construct
  | Run
  | reset
  | IMG_Quit
  | SDL_Quit
deriving DecidableEq, Repr

namespace Program

/-- The function `main`: the exit code and the calls made, or `none` when `Run`
does not return on the supplied frames. -/
def main (env : MainEnv) : Option (ℤ × List MainCall) :=
  if env.SDL_Init ≠ 0 then
    some (1, [.SDL_Init, .SDL_LogCritical, .reset, .IMG_Quit, .SDL_Quit])
  else if env.IMG_Init &&& IMG_INIT_PNG ≠ IMG_INIT_PNG then
    some (2, [.SDL_Init, .IMG_Init, .SDL_LogCritical, .reset, .IMG_Quit, .SDL_Quit])
  else
    match GameInstance.ctor env.ctor with
    | .error _ =>
      some (4, [.SDL_Init, .IMG_Init, .construct, .SDL_LogCritical,
        .SDL_ShowSimpleMessageBox, .reset, .IMG_Quit, .SDL_Quit])
    | .ok g =>
      match GameInstance.Run env.frames g with
      | none => none
      | some _ =>
        some (0, [.SDL_Init, .IMG_Init, .construct, .Run, .reset, .IMG_Quit, .SDL_Quit])

end Program

namespace Spec

/-- An environment of `main`: the return values of `SDL_Init` and `IMG_Init`,
whether the window can be created, and the frames supplied to `Run`. -/
def mainEnv (sdlInit : ℤ) (imgInit : ℕ) (window : Bool) (frames : List Frame) : MainEnv :=
  { SDL_Init := sdlInit
    IMG_Init := imgInit
    ctor := { windowCreated := window, glContextCreated := true,
              images := (startEnv 0).images, ticks := 0 }
    frames := frames }

end Spec

namespace F32

theorem ilog2Aux_spec : ∀ (fuel n : ℕ), n ≤ fuel → n ≠ 0 →
    2 ^ ilog2Aux fuel n ≤ n ∧ n < 2 ^ (ilog2Aux fuel n + 1) := by
  intro fuel
  induction fuel with
  | zero => intro n h h0; omega
  | succ f ih =>
    intro n h h0
    unfold ilog2Aux
    by_cases h2 : n < 2
    · simp only [h2, if_true]
      omega
    · simp only [h2, if_false]
      have hd : n / 2 ≤ f := by omega
      have hd0 : n / 2 ≠ 0 := by omega
      obtain ⟨h1, h3⟩ := ih (n / 2) hd hd0
      constructor
      · rw [pow_succ]; omega
      · rw [pow_succ]; omega

theorem ilog2_le {n : ℕ} (h : n ≠ 0) : 2 ^ ilog2 n ≤ n :=
  (ilog2Aux_spec n n le_rfl h).1

theorem lt_ilog2 {n : ℕ} (h : n ≠ 0) : n < 2 ^ (ilog2 n + 1) :=
  (ilog2Aux_spec n n le_rfl h).2

theorem ilog2_zero : ilog2 0 = 0 := rfl

theorem ilog2_lt_of_lt {n j : ℕ} (h : n < 2 ^ j) : ilog2 n < j ∨ n = 0 := by
  by_cases h0 : n = 0
  · exact Or.inr h0
  · left
    have h1 := ilog2_le h0
    have h2 : 2 ^ ilog2 n < 2 ^ j := lt_of_le_of_lt h1 h
    exact (Nat.pow_lt_pow_iff_right (by norm_num)).1 h2

theorem le_ilog2_of_le {n j : ℕ} (h : 2 ^ j ≤ n) : j ≤ ilog2 n := by
  have h0 : n ≠ 0 := by
    have : 0 < 2 ^ j := by positivity
    omega
  have h1 := lt_ilog2 h0
  have h2 : 2 ^ j < 2 ^ (ilog2 n + 1) := lt_of_le_of_lt h h1
  have := (Nat.pow_lt_pow_iff_right (a := 2) (by norm_num)).1 h2
  omega

end F32

namespace F32

theorem roundNat_cases (N k : ℕ) :
    ∃ q r m : ℕ, N = 2 ^ (max (ilog2 N - 23) k) * q + r ∧ r < 2 ^ (max (ilog2 N - 23) k) ∧
      (m = q ∨ (m = q + 1 ∧ 0 < r)) ∧
      roundNat N k = m * 2 ^ (max (ilog2 N - 23) k - k) := by
  have hpos : 0 < 2 ^ (max (ilog2 N - 23) k) := by positivity
  refine ⟨N / 2 ^ (max (ilog2 N - 23) k), N % 2 ^ (max (ilog2 N - 23) k), ?_⟩
  by_cases hup : 2 ^ (max (ilog2 N - 23) k) < 2 * (N % 2 ^ (max (ilog2 N - 23) k)) ∨
      (2 * (N % 2 ^ (max (ilog2 N - 23) k)) = 2 ^ (max (ilog2 N - 23) k) ∧
        N / 2 ^ (max (ilog2 N - 23) k) % 2 = 1)
  · refine ⟨N / 2 ^ (max (ilog2 N - 23) k) + 1, (Nat.div_add_mod _ _).symm,
      Nat.mod_lt _ hpos, Or.inr ⟨rfl, ?_⟩, ?_⟩
    · rcases hup with h | ⟨h, _⟩ <;> omega
    · simp only [roundNat, hup, if_true]
  · refine ⟨N / 2 ^ (max (ilog2 N - 23) k), (Nat.div_add_mod _ _).symm,
      Nat.mod_lt _ hpos, Or.inl rfl, ?_⟩
    simp only [roundNat, hup, if_false]

/-- Rounding never moves above a representable upper bound. -/
theorem roundNat_le {N k R : ℕ} (hR : Rep R) (h : N ≤ R * 2 ^ k) : roundNat N k ≤ R := by
  obtain ⟨q, r, m, hN, hr, hm, hres⟩ := roundNat_cases N k
  rw [hres]
  generalize hs : max (ilog2 N - 23) k = s at hN hr hres ⊢
  have hks : k ≤ s := by rw [← hs]; exact le_max_right _ _
  -- the spacing divides the bound
  have hdvd : 2 ^ (s - k) ∣ R := by
    by_cases hsk : s = k
    · rw [hsk, Nat.sub_self, pow_zero]; exact one_dvd _
    · have hsL : s = ilog2 N - 23 := by
        rcases max_cases (ilog2 N - 23) k with ⟨h1, _⟩ | ⟨h1, _⟩ <;> omega
      have hN0 : N ≠ 0 := by
        intro h0
        rw [h0, ilog2_zero] at hsL
        omega
      have h1 : 2 ^ ilog2 N ≤ R * 2 ^ k := le_trans (ilog2_le hN0) h
      have hR0 : R ≠ 0 := by
        intro h0
        rw [h0, zero_mul] at h1
        have : 0 < 2 ^ ilog2 N := by positivity
        omega
      have h2 : R * 2 ^ k < 2 ^ (ilog2 R + 1 + k) := by
        rw [pow_add]
        exact Nat.mul_lt_mul_of_pos_right (lt_ilog2 hR0) (by positivity)
      have h3 : ilog2 N < ilog2 R + 1 + k :=
        (Nat.pow_lt_pow_iff_right (a := 2) (by norm_num)).1 (lt_of_le_of_lt h1 h2)
      have h4 : 2 ^ (ilog2 R - 23) ∣ R := Nat.dvd_of_mod_eq_zero hR
      exact dvd_trans (pow_dvd_pow 2 (by omega)) h4
  obtain ⟨c, hc⟩ := hdvd
  have hpk : 2 ^ (s - k) * 2 ^ k = 2 ^ s := by rw [← pow_add]; congr 1; omega
  have hNc : 2 ^ s * q + r ≤ 2 ^ s * c := by
    calc 2 ^ s * q + r = N := hN.symm
      _ ≤ R * 2 ^ k := h
      _ = 2 ^ s * c := by rw [hc, ← hpk]; ring
  have hpos : 0 < 2 ^ s := by positivity
  have hmc : m ≤ c := by
    rcases hm with rfl | ⟨rfl, hr0⟩
    · by_contra hlt
      push_neg at hlt
      have : 2 ^ s * (c + 1) ≤ 2 ^ s * m := Nat.mul_le_mul_left _ hlt
      have h5 : 2 ^ s * (c + 1) = 2 ^ s * c + 2 ^ s := by ring
      omega
    · by_contra hlt
      push_neg at hlt
      have : 2 ^ s * c ≤ 2 ^ s * q := Nat.mul_le_mul_left _ (by omega)
      omega
  rw [hc]
  calc m * 2 ^ (s - k) ≤ c * 2 ^ (s - k) := Nat.mul_le_mul_right _ hmc
    _ = 2 ^ (s - k) * c := by ring

/-- Rounding never moves below a representable lower bound. -/
theorem le_roundNat {N k R : ℕ} (hR : Rep R) (h : R * 2 ^ k ≤ N) : R ≤ roundNat N k := by
  obtain ⟨q, r, m, hN, hr, hm, hres⟩ := roundNat_cases N k
  rw [hres]
  generalize hs : max (ilog2 N - 23) k = s at hN hr hres ⊢
  have hks : k ≤ s := by rw [← hs]; exact le_max_right _ _
  have hpk : 2 ^ (s - k) * 2 ^ k = 2 ^ s := by rw [← pow_add]; congr 1; omega
  have hqm : q ≤ m := by rcases hm with rfl | ⟨rfl, _⟩ <;> omega
  suffices hq : R ≤ q * 2 ^ (s - k) from le_trans hq (Nat.mul_le_mul_right _ hqm)
  have hpos : 0 < 2 ^ s := by positivity
  by_cases hdvd : 2 ^ (s - k) ∣ R
  · obtain ⟨c, hc⟩ := hdvd
    have hNc : 2 ^ s * c ≤ 2 ^ s * q + r := by
      calc 2 ^ s * c = R * 2 ^ k := by rw [hc, ← hpk]; ring
        _ ≤ N := h
        _ = 2 ^ s * q + r := hN
    have hcq : c ≤ q := by
      by_contra hlt
      push_neg at hlt
      have : 2 ^ s * (q + 1) ≤ 2 ^ s * c := Nat.mul_le_mul_left _ hlt
      have h5 : 2 ^ s * (q + 1) = 2 ^ s * q + 2 ^ s := by ring
      omega
    rw [hc]
    calc 2 ^ (s - k) * c = c * 2 ^ (s - k) := by ring
      _ ≤ q * 2 ^ (s - k) := Nat.mul_le_mul_right _ hcq
  · have hsk : s ≠ k := by
      intro hsk
      apply hdvd
      rw [hsk, Nat.sub_self, pow_zero]; exact one_dvd _
    have hsL : s = ilog2 N - 23 := by
      rcases max_cases (ilog2 N - 23) k with ⟨h1, _⟩ | ⟨h1, _⟩ <;> omega
    have hN0 : N ≠ 0 := by
      intro h0
      rw [h0, ilog2_zero] at hsL
      omega
    have hR0 : R ≠ 0 := by
      intro h0
      apply hdvd
      rw [h0]; exact dvd_zero _
    have hlog : ¬ (s - k ≤ ilog2 R - 23) := by
      intro hle
      exact hdvd (dvd_trans (pow_dvd_pow 2 hle) (Nat.dvd_of_mod_eq_zero hR))
    have hRlt : R < 2 ^ (23 + (s - k)) :=
      lt_of_lt_of_le (lt_ilog2 hR0) (Nat.pow_le_pow_right (by norm_num) (by omega))
    have hq23 : 2 ^ 23 ≤ q := by
      have h1 : 2 ^ (s + 23) ≤ N := by
        have : s + 23 = ilog2 N := by omega
        rw [this]; exact ilog2_le hN0
      by_contra hlt
      push_neg at hlt
      have h2 : 2 ^ s * (q + 1) ≤ 2 ^ s * 2 ^ 23 := Nat.mul_le_mul_left _ hlt
      have h3 : 2 ^ s * (q + 1) = 2 ^ s * q + 2 ^ s := by ring
      have h4 : 2 ^ (s + 23) = 2 ^ s * 2 ^ 23 := by rw [pow_add]
      omega
    have : 2 ^ (23 + (s - k)) ≤ q * 2 ^ (s - k) := by
      rw [pow_add]
      exact Nat.mul_le_mul_right _ hq23
    omega

end F32

namespace F32

/-- The result of rounding has at most `24` significant bits. -/
theorem rep_roundNat (N k : ℕ) : Rep (roundNat N k) := by
  obtain ⟨q, r, m, hN, hr, hm, hres⟩ := roundNat_cases N k
  rw [hres]
  generalize hs : max (ilog2 N - 23) k = s at hN hr hres ⊢
  have hsL : ilog2 N - 23 ≤ s := by rw [← hs]; exact le_max_left _ _
  have hpos : 0 < 2 ^ s := by positivity
  -- the quotient has at most 24 bits
  have hq : q < 2 ^ 24 := by
    by_cases hN0 : N = 0
    · have : 2 ^ s * q = 0 := by omega
      rcases Nat.mul_eq_zero.1 this with h | h
      · omega
      · rw [h]; positivity
    · have h1 : N < 2 ^ (s + 24) :=
        lt_of_lt_of_le (lt_ilog2 hN0) (Nat.pow_le_pow_right (by norm_num) (by omega))
      by_contra hge
      push_neg at hge
      have h2 : 2 ^ s * 2 ^ 24 ≤ 2 ^ s * q := Nat.mul_le_mul_left _ hge
      have h3 : 2 ^ (s + 24) = 2 ^ s * 2 ^ 24 := by rw [pow_add]
      omega
  have hm24 : m ≤ 2 ^ 24 := by rcases hm with rfl | ⟨rfl, _⟩ <;> omega
  unfold Rep
  apply Nat.mod_eq_zero_of_dvd
  by_cases hm0 : m = 0
  · rw [hm0, zero_mul]; exact dvd_zero _
  have hne : m * 2 ^ (s - k) ≠ 0 := by
    have : 0 < 2 ^ (s - k) := by positivity
    exact Nat.mul_ne_zero hm0 (by omega)
  by_cases hmlt : m < 2 ^ 24
  · have h1 : m * 2 ^ (s - k) < 2 ^ (24 + (s - k)) := by
      rw [pow_add]
      exact Nat.mul_lt_mul_of_pos_right hmlt (by positivity)
    have h2 : ilog2 (m * 2 ^ (s - k)) < 24 + (s - k) := by
      rcases ilog2_lt_of_lt h1 with h | h
      · exact h
      · exact absurd h hne
    exact dvd_trans (pow_dvd_pow 2 (by omega)) (dvd_mul_left _ _)
  · have hm' : m = 2 ^ 24 := by omega
    have h1 : m * 2 ^ (s - k) = 2 ^ (24 + (s - k)) := by rw [hm', pow_add]
    rw [h1]
    have h2 : ilog2 (2 ^ (24 + (s - k))) < 24 + (s - k) + 1 := by
      rcases ilog2_lt_of_lt (n := 2 ^ (24 + (s - k))) (j := 24 + (s - k) + 1)
        (Nat.pow_lt_pow_right (by norm_num) (by omega)) with h | h
      · exact h
      · have : 0 < 2 ^ (24 + (s - k)) := by positivity
        omega
    exact pow_dvd_pow 2 (by omega)

theorem rep_zero : Rep 0 := by decide

theorem rep_two_pow (j : ℕ) : Rep (2 ^ j) := by
  unfold Rep
  apply Nat.mod_eq_zero_of_dvd
  have h2 : ilog2 (2 ^ j) < j + 1 := by
    rcases ilog2_lt_of_lt (n := 2 ^ j) (j := j + 1)
      (Nat.pow_lt_pow_right (by norm_num) (by omega)) with h | h
    · exact h
    · have : 0 < 2 ^ j := by positivity
      omega
  exact pow_dvd_pow 2 (by omega)

theorem valid_ofMag (s : Bool) {R : ℕ} (h : Rep R) : Valid (ofMag s R) := by
  unfold ofMag
  by_cases hb : overflowBound ≤ R
  · simp only [hb, if_true, Valid]
  · simp only [hb, if_false]
    cases s
    · simp only [Valid, Bool.false_eq_true, if_false, Int.natAbs_ofNat]
      exact ⟨h, by omega⟩
    · simp only [Valid, if_true, Int.natAbs_neg, Int.natAbs_ofNat]
      exact ⟨h, by omega⟩

theorem add_fin_fin (a b : ℤ) :
    add (.fin a) (.fin b) = ofMag (decide (a + b < 0)) (roundNat (a + b).natAbs 0) := rfl

theorem mul_fin_fin (a b : ℤ) :
    mul (.fin a) (.fin b) = ofMag (decide (a * b < 0)) (roundNat (a * b).natAbs 149) := rfl

/-- The sum of two finite values is never NaN and is again a binary32 value. -/
theorem valid_add_fin (a b : ℤ) : Valid (add (.fin a) (.fin b)) := by
  rw [add_fin_fin]
  exact valid_ofMag _ (rep_roundNat _ _)

/-- Adding a finite non-negative value never decreases a binary32 value. -/
theorem le_add_of_nonneg {r : F32} (hr : Valid r) {x : ℤ} (hx : 0 ≤ x) :
    r ≤ add r (.fin x) := by
  cases r with
  | nan => exact absurd hr (by simp [Valid])
  | inf s =>
    show le (.inf s) (.inf s)
    unfold le
    cases s <;> simp
  | fin a =>
    obtain ⟨hrep, hbound⟩ := hr
    show le (.fin a) (add (.fin a) (.fin x))
    rw [add_fin_fin]
    unfold ofMag
    by_cases hneg : a + x < 0
    · -- the sum is negative, so is `a`; the magnitude shrinks
      have hle : roundNat (a + x).natAbs 0 ≤ a.natAbs :=
        roundNat_le hrep (by rw [pow_zero, mul_one]; omega)
      have hnb : ¬ overflowBound ≤ roundNat (a + x).natAbs 0 := by omega
      simp only [hnb, if_false, hneg, decide_True, if_true, le]
      omega
    · have hdec : decide (a + x < 0) = false := by simp [hneg]
      rw [hdec]
      by_cases hb : overflowBound ≤ roundNat (a + x).natAbs 0
      · simp only [hb, if_true, le]
      · simp only [hb, if_false, Bool.false_eq_true, le]
        by_cases ha : a < 0
        · omega
        · have hge : a.natAbs ≤ roundNat (a + x).natAbs 0 :=
            le_roundNat hrep (by rw [pow_zero, mul_one]; omega)
          omega

end F32

namespace F32

/-- Rounding moves a number by at most half the spacing. -/
theorem roundNat_err (N k : ℕ) :
    2 * |(roundNat N k * 2 ^ k : ℤ) - N| ≤ 2 ^ (max (ilog2 N - 23) k) := by
  have hks : k ≤ max (ilog2 N - 23) k := le_max_right _ _
  generalize hs : max (ilog2 N - 23) k = s at hks
  have hpos : 0 < 2 ^ s := by positivity
  have hdm : 2 ^ s * (N / 2 ^ s) + N % 2 ^ s = N := Nat.div_add_mod N (2 ^ s)
  have hpk : 2 ^ (s - k) * 2 ^ k = 2 ^ s := by rw [← pow_add]; congr 1; omega
  have hr : N % 2 ^ s < 2 ^ s := Nat.mod_lt _ hpos
  have hcast : (roundNat N k * 2 ^ k : ℤ) = ((roundNat N k * 2 ^ k : ℕ) : ℤ) := by
    push_cast; rfl
  have hcast2 : (2 : ℤ) ^ s = ((2 ^ s : ℕ) : ℤ) := by push_cast; rfl
  rw [hcast, hcast2]
  by_cases hup : 2 ^ s < 2 * (N % 2 ^ s) ∨ (2 * (N % 2 ^ s) = 2 ^ s ∧ N / 2 ^ s % 2 = 1)
  · have hres : roundNat N k = (N / 2 ^ s + 1) * 2 ^ (s - k) := by
      simp only [roundNat, hs, hup, if_true]
    have hval : roundNat N k * 2 ^ k = 2 ^ s * (N / 2 ^ s) + 2 ^ s := by
      rw [hres, mul_assoc, hpk]; ring
    have hge : 2 ^ s ≤ 2 * (N % 2 ^ s) := by rcases hup with h | ⟨h, _⟩ <;> omega
    rw [hval]
    generalize 2 ^ s * (N / 2 ^ s) = Q at hdm
    generalize N % 2 ^ s = r at hdm hr hge
    generalize 2 ^ s = P at hpos hr hge
    rcases abs_cases (((Q + P : ℕ) : ℤ) - (N : ℤ)) with ⟨h1, _⟩ | ⟨h1, _⟩ <;> rw [h1] <;> omega
  · have hres : roundNat N k = (N / 2 ^ s) * 2 ^ (s - k) := by
      simp only [roundNat, hs, hup, if_false]
    have hval : roundNat N k * 2 ^ k = 2 ^ s * (N / 2 ^ s) := by
      rw [hres, mul_assoc, hpk]; ring
    have hle : 2 * (N % 2 ^ s) ≤ 2 ^ s := by
      by_contra hlt
      exact hup (Or.inl (by omega))
    rw [hval]
    generalize 2 ^ s * (N / 2 ^ s) = Q at hdm
    generalize N % 2 ^ s = r at hdm hr hle
    generalize 2 ^ s = P at hpos hr hle
    rcases abs_cases (((Q : ℕ) : ℤ) - (N : ℤ)) with ⟨h1, _⟩ | ⟨h1, _⟩ <;> rw [h1] <;> omega

/-- Rounding an integer number of units changes it by at most the fraction
`2^-24` of itself. -/
theorem roundNat_zero_err (N : ℕ) : 2 ^ 24 * |(roundNat N 0 : ℤ) - N| ≤ (N : ℤ) := by
  have h := roundNat_err N 0
  rw [pow_zero, mul_one] at h
  by_cases hs : ilog2 N - 23 = 0
  · rw [hs, max_self, pow_zero] at h
    have : |(roundNat N 0 : ℤ) - N| = 0 := by
      have := abs_nonneg ((roundNat N 0 : ℤ) - N)
      omega
    rw [this]
    simp
  · have hmax : max (ilog2 N - 23) 0 = ilog2 N - 23 := max_eq_left (Nat.zero_le _)
    rw [hmax] at h
    have hN0 : N ≠ 0 := by
      intro h0
      rw [h0, ilog2_zero] at hs
      exact hs rfl
    have hle := ilog2_le hN0
    have hpow : 2 ^ 23 * 2 ^ (ilog2 N - 23) = 2 ^ ilog2 N := by
      rw [← pow_add]; congr 1; omega
    have h1 : (2 : ℤ) ^ 23 * (2 * |(roundNat N 0 : ℤ) - N|) ≤ 2 ^ 23 * 2 ^ (ilog2 N - 23) :=
      mul_le_mul_of_nonneg_left h (by positivity)
    have h2 : (2 : ℤ) ^ 23 * 2 ^ (ilog2 N - 23) ≤ (N : ℤ) := by
      have : ((2 ^ 23 * 2 ^ (ilog2 N - 23) : ℕ) : ℤ) ≤ (N : ℤ) := by
        rw [hpow]; exact_mod_cast hle
      simpa using this
    calc 2 ^ 24 * |(roundNat N 0 : ℤ) - N| = 2 ^ 23 * (2 * |(roundNat N 0 : ℤ) - N|) := by ring
      _ ≤ (N : ℤ) := le_trans h1 h2

/-- The error of one binary32 addition: if the exact sum is below `2^127`, the
result is finite and differs from it by at most the fraction `2^-24` of it. -/
theorem add_fin_err {a b : ℤ} (h : (a + b).natAbs ≤ 2 ^ 276) :
    ∃ c : ℤ, add (.fin a) (.fin b) = .fin c ∧ 2 ^ 24 * |c - (a + b)| ≤ |a + b| := by
  have hR : roundNat (a + b).natAbs 0 ≤ 2 ^ 276 :=
    roundNat_le (rep_two_pow 276) (by rw [pow_zero, mul_one]; exact h)
  have hov : ¬ overflowBound ≤ roundNat (a + b).natAbs 0 := by
    have : (2 : ℕ) ^ 276 < overflowBound := by
      unfold overflowBound
      rw [← pow_add]
      exact Nat.pow_lt_pow_right (by norm_num) (by norm_num)
    omega
  have herr := roundNat_zero_err (a + b).natAbs
  rw [add_fin_fin]
  unfold ofMag
  rw [if_neg hov]
  by_cases hneg : a + b < 0
  · refine ⟨-(roundNat (a + b).natAbs 0 : ℤ), by simp [hneg], ?_⟩
    have h1 : ((a + b).natAbs : ℤ) = -(a + b) := by omega
    have h2 : |a + b| = -(a + b) := abs_of_neg hneg
    rw [h1] at herr
    rw [h2]
    have h3 : |(-(roundNat (a + b).natAbs 0 : ℤ)) - (a + b)|
        = |(roundNat (a + b).natAbs 0 : ℤ) - -(a + b)| := by
      rw [← abs_neg]; congr 1; ring
    rw [h3]
    exact herr
  · refine ⟨(roundNat (a + b).natAbs 0 : ℤ), by simp [hneg], ?_⟩
    have h1 : ((a + b).natAbs : ℤ) = a + b := by omega
    have h2 : |a + b| = a + b := abs_of_nonneg (by omega)
    rw [h1] at herr
    rw [h2]
    exact herr

end F32

namespace F32

theorem lit_1_1000 : lit 1 1000 = .fin (8589935 * 2 ^ 116) := by decide

theorem toRat_fin (n : ℤ) : toRat (.fin n) = (n : ℚ) / 2 ^ 149 := rfl

theorem ofMag_false_of_lt {R : ℕ} (h : R < overflowBound) : ofMag false R = .fin (R : ℤ) := by
  unfold ofMag
  rw [if_neg (by omega)]
  rfl

/-- An unsigned 32-bit integer converts to a finite, non-negative value. -/
theorem ofNat_of_lt {d : ℕ} (h : d < 2 ^ 32) :
    ∃ n : ℕ, ofNat d = .fin (n : ℤ) ∧ n ≤ 2 ^ 181 := by
  have hle : roundNat (d * 2 ^ 149) 0 ≤ 2 ^ 181 := by
    apply roundNat_le (rep_two_pow 181)
    rw [pow_zero, mul_one]
    calc d * 2 ^ 149 ≤ 2 ^ 32 * 2 ^ 149 := Nat.mul_le_mul_right _ (le_of_lt h)
      _ = 2 ^ 181 := by rw [← pow_add]
  refine ⟨roundNat (d * 2 ^ 149) 0, ?_, hle⟩
  unfold ofNat
  apply ofMag_false_of_lt
  have : (2 : ℕ) ^ 181 < overflowBound := by
    unfold overflowBound
    rw [← pow_add]
    exact Nat.pow_lt_pow_right (by norm_num) (by norm_num)
  omega

/-- The product `float(d) * 0.001F` of `Tick` is finite and non-negative. -/
theorem elapsed_of_lt {d : ℕ} (h : d < 2 ^ 32) :
    ∃ e : ℕ, mul (ofNat d) (lit 1 1000) = .fin (e : ℤ) ∧ e ≤ 2 ^ 172 := by
  obtain ⟨n, hn, hn181⟩ := ofNat_of_lt h
  rw [hn, lit_1_1000, mul_fin_fin]
  have hprod : ((n : ℤ) * (8589935 * 2 ^ 116)).natAbs = n * (8589935 * 2 ^ 116) := by
    have : (n : ℤ) * (8589935 * 2 ^ 116) = ((n * (8589935 * 2 ^ 116) : ℕ) : ℤ) := by
      push_cast; ring
    rw [this, Int.natAbs_ofNat]
  have hneg : decide ((n : ℤ) * (8589935 * 2 ^ 116) < 0) = false := by
    rw [decide_eq_false_iff_not, not_lt]
    exact Int.mul_nonneg (Int.natCast_nonneg n) (by norm_num)
  rw [hprod, hneg]
  have hle : roundNat (n * (8589935 * 2 ^ 116)) 149 ≤ 2 ^ 172 := by
    apply roundNat_le (rep_two_pow 172)
    calc n * (8589935 * 2 ^ 116) ≤ 2 ^ 181 * (2 ^ 24 * 2 ^ 116) :=
          Nat.mul_le_mul hn181 (Nat.mul_le_mul_right _ (by norm_num))
      _ = 2 ^ 172 * 2 ^ 149 := by rw [← pow_add, ← pow_add, ← pow_add]
  refine ⟨_, ofMag_false_of_lt ?_, hle⟩
  have : (2 : ℕ) ^ 172 < overflowBound := by
    unfold overflowBound
    rw [← pow_add]
    exact Nat.pow_lt_pow_right (by norm_num) (by norm_num)
  omega

theorem valid_add_of_valid {r : F32} (hr : Valid r) (x : ℤ) : Valid (add r (.fin x)) := by
  cases r with
  | nan => exact absurd hr (by simp [Valid])
  | inf s => exact hr
  | fin a => exact valid_add_fin a x


theorem roundNat_zero_left (k : ℕ) : roundNat 0 k = 0 := by
  have h := roundNat_le (N := 0) (k := k) rep_zero (by simp)
  omega

/-- Above the subnormal range rounding changes a number by at most the fraction
`2^-24` of itself. -/
theorem roundNat_rel_err {N k : ℕ} (h : N = 0 ∨ 2 ^ (k + 23) ≤ N) :
    2 ^ 24 * |(roundNat N k * 2 ^ k : ℤ) - N| ≤ (N : ℤ) := by
  rcases h with h0 | hN
  · rw [h0, roundNat_zero_left]
    simp
  · have herr := roundNat_err N k
    have hlog : k + 23 ≤ ilog2 N := le_ilog2_of_le hN
    have hmax : max (ilog2 N - 23) k = ilog2 N - 23 := max_eq_left (by omega)
    rw [hmax] at herr
    have hN0 : N ≠ 0 := by
      intro h0
      rw [h0] at hN
      have : 0 < 2 ^ (k + 23) := by positivity
      omega
    have hle := ilog2_le hN0
    have hpow : 2 ^ 23 * 2 ^ (ilog2 N - 23) = 2 ^ ilog2 N := by
      rw [← pow_add]; congr 1; omega
    have h1 : (2 : ℤ) ^ 23 * (2 * |(roundNat N k * 2 ^ k : ℤ) - N|)
        ≤ 2 ^ 23 * 2 ^ (ilog2 N - 23) :=
      mul_le_mul_of_nonneg_left herr (by positivity)
    have h2 : (2 : ℤ) ^ 23 * 2 ^ (ilog2 N - 23) ≤ (N : ℤ) := by
      have : ((2 ^ 23 * 2 ^ (ilog2 N - 23) : ℕ) : ℤ) ≤ (N : ℤ) := by
        rw [hpow]; exact_mod_cast hle
      simpa using this
    calc 2 ^ 24 * |(roundNat N k * 2 ^ k : ℤ) - N|
        = 2 ^ 23 * (2 * |(roundNat N k * 2 ^ k : ℤ) - N|) := by ring
      _ ≤ (N : ℤ) := le_trans h1 h2

/-- The conversion of an unsigned 32-bit integer, with its rounding error. -/
theorem ofNat_err {d : ℕ} (h : d < 2 ^ 32) :
    ∃ n : ℕ, ofNat d = .fin (n : ℤ) ∧ n ≤ 2 ^ 181 ∧
      2 ^ 24 * |(n : ℤ) - d * 2 ^ 149| ≤ (d : ℤ) * 2 ^ 149 := by
  have hle : roundNat (d * 2 ^ 149) 0 ≤ 2 ^ 181 := by
    apply roundNat_le (rep_two_pow 181)
    rw [pow_zero, mul_one]
    calc d * 2 ^ 149 ≤ 2 ^ 32 * 2 ^ 149 := Nat.mul_le_mul_right _ (le_of_lt h)
      _ = 2 ^ 181 := by rw [← pow_add]
  refine ⟨roundNat (d * 2 ^ 149) 0, ?_, hle, ?_⟩
  · unfold ofNat
    apply ofMag_false_of_lt
    have : (2 : ℕ) ^ 181 < overflowBound := by
      unfold overflowBound
      rw [← pow_add]
      exact Nat.pow_lt_pow_right (by norm_num) (by norm_num)
    omega
  · have := roundNat_zero_err (d * 2 ^ 149)
    push_cast at this
    exact this

/-- The product `float(d) * 0.001F` of `Tick` is finite, non-negative and within
the fraction `2^-22` of `d / 1000`. -/
theorem elapsed_close {d : ℕ} (h : d < 2 ^ 32) :
    ∃ e : ℕ, mul (ofNat d) (lit 1 1000) = .fin (e : ℤ) ∧ e ≤ 2 ^ 172 ∧
      |toRat (.fin (e : ℤ)) - (d : ℚ) / 1000| ≤ (d : ℚ) / 1000 / 2 ^ 22 := by
  obtain ⟨n, hn, hn181, hnerr⟩ := ofNat_err h
  rw [hn, lit_1_1000, mul_fin_fin]
  have hprod : ((n : ℤ) * (8589935 * 2 ^ 116)).natAbs = n * (8589935 * 2 ^ 116) := by
    have : (n : ℤ) * (8589935 * 2 ^ 116) = ((n * (8589935 * 2 ^ 116) : ℕ) : ℤ) := by
      push_cast; ring
    rw [this, Int.natAbs_ofNat]
  have hneg : decide ((n : ℤ) * (8589935 * 2 ^ 116) < 0) = false := by
    rw [decide_eq_false_iff_not, not_lt]
    exact Int.mul_nonneg (Int.natCast_nonneg n) (by norm_num)
  rw [hprod, hneg]
  have hle : roundNat (n * (8589935 * 2 ^ 116)) 149 ≤ 2 ^ 172 := by
    apply roundNat_le (rep_two_pow 172)
    calc n * (8589935 * 2 ^ 116) ≤ 2 ^ 181 * (2 ^ 24 * 2 ^ 116) :=
          Nat.mul_le_mul hn181 (Nat.mul_le_mul_right _ (by norm_num))
      _ = 2 ^ 172 * 2 ^ 149 := by rw [← pow_add, ← pow_add, ← pow_add]
  have hfin : ofMag false (roundNat (n * (8589935 * 2 ^ 116)) 149)
      = .fin ((roundNat (n * (8589935 * 2 ^ 116)) 149 : ℕ) : ℤ) := by
    apply ofMag_false_of_lt
    have : (2 : ℕ) ^ 172 < overflowBound := by
      unfold overflowBound
      rw [← pow_add]
      exact Nat.pow_lt_pow_right (by norm_num) (by norm_num)
    omega
  refine ⟨_, hfin, hle, ?_⟩
  -- the product is zero or above the subnormal range
  have hnormal : n * (8589935 * 2 ^ 116) = 0 ∨ 2 ^ (149 + 23) ≤ n * (8589935 * 2 ^ 116) := by
    by_cases hd : d = 0
    · left
      subst hd
      have h0 : |(n : ℤ) - 0| ≤ 0 := by
        have := hnerr
        simp only [Nat.cast_zero, zero_mul, sub_zero] at this ⊢
        have hnn := abs_nonneg (n : ℤ)
        nlinarith
      have : (n : ℤ) = 0 := by
        have := abs_nonpos_iff.1 h0
        simpa using this
      have hn0 : n = 0 := by exact_mod_cast this
      rw [hn0, zero_mul]
    · right
      have hd1 : (1 : ℤ) ≤ d := by exact_mod_cast Nat.one_le_iff_ne_zero.2 hd
      have hlow : (2 : ℤ) ^ 148 ≤ n := by
        have h1 := (abs_le.1 (show |(n : ℤ) - d * 2 ^ 149| ≤ |(n : ℤ) - d * 2 ^ 149| from le_rfl)).1
        have h2 : (0 : ℤ) ≤ |(n : ℤ) - d * 2 ^ 149| := abs_nonneg _
        nlinarith
      have hlow' : 2 ^ 148 ≤ n := by exact_mod_cast hlow
      calc 2 ^ (149 + 23) = 2 ^ 148 * 2 ^ 24 := by rw [← pow_add]
        _ ≤ n * (8589935 * 2 ^ 116) := Nat.mul_le_mul hlow' (by norm_num)
  have herr := roundNat_rel_err (k := 149) hnormal
  -- now in the rationals
  set e := roundNat (n * (8589935 * 2 ^ 116)) 149 with he
  have hq1 : (2 : ℚ) ^ 24 * |(n : ℚ) - d * 2 ^ 149| ≤ (d : ℚ) * 2 ^ 149 := by
    have := (Int.cast_le (R := ℚ)).2 hnerr
    simp only [Int.cast_mul, Int.cast_abs, Int.cast_sub, Int.cast_pow, Int.cast_ofNat,
      Int.cast_natCast] at this
    exact this
  have hq2 : (2 : ℚ) ^ 24 * |(e : ℚ) * 2 ^ 149 - n * (8589935 * 2 ^ 116)|
      ≤ (n : ℚ) * (8589935 * 2 ^ 116) := by
    have := (Int.cast_le (R := ℚ)).2 herr
    simp only [Int.cast_mul, Int.cast_abs, Int.cast_sub, Int.cast_pow, Int.cast_ofNat,
      Int.cast_natCast, Nat.cast_mul, Nat.cast_pow, Nat.cast_ofNat] at this
    exact this
  rw [toRat_fin]
  have hd0 : (0 : ℚ) ≤ d := Nat.cast_nonneg d
  have hn0 : (0 : ℚ) ≤ n := Nat.cast_nonneg n
  have hq1' := abs_le.1 (show |(n : ℚ) - d * 2 ^ 149| ≤ (d : ℚ) * 2 ^ 149 / 2 ^ 24 by
    rw [le_div_iff₀ (by positivity)]; linarith)
  have hq2' := abs_le.1
    (show |(e : ℚ) * 2 ^ 149 - n * (8589935 * 2 ^ 116)| ≤ (n : ℚ) * (8589935 * 2 ^ 116) / 2 ^ 24 by
      rw [le_div_iff₀ (by positivity)]; linarith)
  push_cast
  rw [abs_le]
  constructor
  · rw [le_sub_iff_add_le, ← sub_eq_neg_add, le_div_iff₀ (by positivity)]
    nlinarith [hq1'.1, hq1'.2, hq2'.1, hq2'.2]
  · rw [sub_le_iff_le_add, div_le_iff₀ (by positivity)]
    nlinarith [hq1'.1, hq1'.2, hq2'.1, hq2'.2]

end F32

/-! ## Events -/

namespace GameInstance

theorem OnEvent_rotation (d : ℤ × ℤ) (e : SDL_Event) (g : GameInstance) :
    (OnEvent d e g).rotation = g.rotation := by
  unfold OnEvent
  dsimp only
  split_ifs <;> rfl

theorem OnEvent_exiting (d : ℤ × ℤ) (e : SDL_Event) (g : GameInstance) :
    (OnEvent d e g).exiting = (g.exiting || decide (e.type = SDL_QUIT)) := by
  unfold OnEvent
  dsimp only
  by_cases h1 : e.type = SDL_QUIT
  · rw [if_pos h1]
    split_ifs <;> simp [h1]
  · rw [if_neg h1]
    split_ifs <;> simp [h1]

end GameInstance

/-- C3: on a window size-changed event `OnEvent` stores exactly the drawable
size `(W, H)` that the platform reports and makes exactly one viewport update,
with the rectangle `(0, 0, W, H)`. -/
theorem C3_resize_updates_size_and_viewport (g : GameInstance) (e : SDL_Event) (W H : ℤ)
    (htype : e.type = SDL_WINDOWEVENT)
    (hevent : e.window_event = SDL_WINDOWEVENT_SIZE_CHANGED) :
    (GameInstance.OnEvent (W, H) e g).width = W ∧
    (GameInstance.OnEvent (W, H) e g).height = H ∧
    (GameInstance.OnEvent (W, H) e g).scene.viewport = ⟨0, 0, W, H⟩ ∧
    (GameInstance.OnEvent (W, H) e g).calls
      = g.calls ++ [Call.OnEvent e, Call.SetViewport ⟨0, 0, W, H⟩] ∧
    (GameInstance.OnEvent (W, H) e g).exiting = g.exiting := by
  have hq : SDL_WINDOWEVENT ≠ SDL_QUIT := by decide
  simp [GameInstance.OnEvent, htype, hevent, hq]

/-- Witness of C3: a resize to `1024 x 768` of the freshly constructed instance. -/
theorem C3_resize_witness :
    (GameInstance.OnEvent (1024, 768) Spec.resizeEvent
        (GameInstance.setup (Spec.startEnv 0))).width = 1024 ∧
    (GameInstance.OnEvent (1024, 768) Spec.resizeEvent
        (GameInstance.setup (Spec.startEnv 0))).height = 768 ∧
    (GameInstance.OnEvent (1024, 768) Spec.resizeEvent
        (GameInstance.setup (Spec.startEnv 0))).scene.viewport = ⟨0, 0, 1024, 768⟩ ∧
    (GameInstance.OnEvent (1024, 768) Spec.resizeEvent
        (GameInstance.setup (Spec.startEnv 0))).calls
      = (GameInstance.setup (Spec.startEnv 0)).calls
        ++ [Call.OnEvent Spec.resizeEvent, Call.SetViewport ⟨0, 0, 1024, 768⟩] ∧
    (GameInstance.OnEvent (1024, 768) Spec.resizeEvent
        (GameInstance.setup (Spec.startEnv 0))).exiting
      = (GameInstance.setup (Spec.startEnv 0)).exiting :=
  C3_resize_updates_size_and_viewport (GameInstance.setup (Spec.startEnv 0))
    Spec.resizeEvent 1024 768 rfl rfl

/-! ## Exiting is terminal -/

namespace GameInstance

theorem Tick_exiting (t : ℕ) (g : GameInstance) : (Tick t g).exiting = g.exiting := rfl

theorem Tick_elapsed (t : ℕ) (g : GameInstance) :
    (Tick t g).elapsed =
      F32.mul (F32.ofNat ((t % 2 ^ 32 + 2 ^ 32 - g.then_ % 2 ^ 32) % 2 ^ 32)) (F32.lit 1 1000) :=
  rfl

theorem Tick_then (t : ℕ) (g : GameInstance) : (Tick t g).then_ = t % 2 ^ 32 := rfl

theorem Tick_now (t : ℕ) (g : GameInstance) : (Tick t g).now = t % 2 ^ 32 := rfl

theorem setup_exiting (env : CtorEnv) : (setup env).exiting = false := by
  unfold setup
  rfl

theorem ctor_ok {env : CtorEnv} {g : GameInstance} (h : ctor env = .ok g) : g = setup env := by
  unfold ctor at h
  split_ifs at h
  exact (Except.ok.inj h).symm

end GameInstance

/-- C10: the constructed instance is Running (`exiting = false`); once `exiting`
is true, `OnEvent` on any event and `Tick` at any time leave it true; and
`OnEvent` changes `exiting` only on a quit event, from false to true. -/
theorem C10_exiting_is_terminal (env : CtorEnv) (g : GameInstance) (d : ℤ × ℤ)
    (e : SDL_Event) (t : ℕ) :
    (∀ g0, GameInstance.ctor env = .ok g0 → g0.exiting = false) ∧
    (g.exiting = true → (GameInstance.OnEvent d e g).exiting = true) ∧
    (g.exiting = true → (GameInstance.Tick t g).exiting = true) ∧
    ((GameInstance.OnEvent d e g).exiting ≠ g.exiting →
      e.type = SDL_QUIT ∧ g.exiting = false ∧ (GameInstance.OnEvent d e g).exiting = true) := by
  refine ⟨?_, ?_, ?_, ?_⟩
  · intro g0 h
    rw [GameInstance.ctor_ok h]
    exact GameInstance.setup_exiting env
  · intro h
    rw [GameInstance.OnEvent_exiting, h]
    rfl
  · intro h
    rw [GameInstance.Tick_exiting, h]
  · intro h
    rw [GameInstance.OnEvent_exiting] at h ⊢
    by_cases hq : e.type = SDL_QUIT
    · cases hg : g.exiting
      · simp [hq]
      · simp [hg] at h
    · simp [hq] at h

/-- Witness of C10: the constructed instance, a quit event, then any further
event or tick. -/
theorem C10_exiting_witness :
    (GameInstance.OnEvent (800, 800) Spec.resizeEvent
      (GameInstance.OnEvent (800, 800) Spec.quitEvent
        (GameInstance.setup (Spec.startEnv 0)))).exiting = true ∧
    (GameInstance.Tick 16
      (GameInstance.OnEvent (800, 800) Spec.quitEvent
        (GameInstance.setup (Spec.startEnv 0)))).exiting = true ∧
    (GameInstance.setup (Spec.startEnv 0)).exiting = false ∧
    (Spec.quitEvent.type = SDL_QUIT ∧ (GameInstance.setup (Spec.startEnv 0)).exiting = false ∧
      (GameInstance.OnEvent (800, 800) Spec.quitEvent
        (GameInstance.setup (Spec.startEnv 0))).exiting = true) :=
  ⟨(C10_exiting_is_terminal (Spec.startEnv 0)
      (GameInstance.OnEvent (800, 800) Spec.quitEvent (GameInstance.setup (Spec.startEnv 0)))
      (800, 800) Spec.resizeEvent 16).2.1 (by decide),
   (C10_exiting_is_terminal (Spec.startEnv 0)
      (GameInstance.OnEvent (800, 800) Spec.quitEvent (GameInstance.setup (Spec.startEnv 0)))
      (800, 800) Spec.resizeEvent 16).2.2.1 (by decide),
   (C10_exiting_is_terminal (Spec.startEnv 0) (GameInstance.setup (Spec.startEnv 0))
      (800, 800) Spec.quitEvent 16).1 _ rfl,
   (C10_exiting_is_terminal (Spec.startEnv 0) (GameInstance.setup (Spec.startEnv 0))
      (800, 800) Spec.quitEvent 16).2.2.2 (by decide)⟩

/-! ## Texture loading and start-up -/

/-- C5: when `IMG_Load` returns null, `TextureFromPath` still returns: the
result is the handle of the texture it created with linear filtering, repeat
wrapping on both axes, zero width and height and no pixel data; that texture
received no `SetImage` call, the textures that existed before are untouched, and
the constructor, which loads its two textures this way, succeeds whenever the
window and the GL context exist, whatever the decoding does. -/
theorem C5_decode_failure_is_not_fatal (env : ImageEnv) (renderer : Ego.Renderer)
    (path : String) (hload : env.IMG_Load path = none) :
    TextureFromPath env renderer path =
      ({ textures := renderer.textures ++
          [{ info := { filtering := .TEXTURE_FILTERING_LINEAR, wrapU := .TEXTURE_WRAP_REPEAT,
                       wrapV := .TEXTURE_WRAP_REPEAT, width := 0, height := 0, data := none },
             images := [] }] },
       renderer.textures.length) ∧
    (TextureFromPath env renderer path).1.textures[(TextureFromPath env renderer path).2]? =
      some { info := { filtering := .TEXTURE_FILTERING_LINEAR, wrapU := .TEXTURE_WRAP_REPEAT,
                       wrapV := .TEXTURE_WRAP_REPEAT, width := 0, height := 0, data := none },
             images := [] } ∧
    (∀ cenv : CtorEnv, cenv.windowCreated = true → cenv.glContextCreated = true →
      GameInstance.ctor cenv = .ok (GameInstance.setup cenv)) := by
  have h : TextureFromPath env renderer path =
      ({ textures := renderer.textures ++
          [{ info := { filtering := .TEXTURE_FILTERING_LINEAR, wrapU := .TEXTURE_WRAP_REPEAT,
                       wrapV := .TEXTURE_WRAP_REPEAT, width := 0, height := 0, data := none },
             images := [] }] },
       renderer.textures.length) := by
    simp [TextureFromPath, Ego.Renderer.NewTexture, hload]
  refine ⟨h, ?_, ?_⟩
  · rw [h]
    simp
  · intro cenv hw hc
    simp [GameInstance.ctor, hw, hc]

/-- Witness of C5: loading `eye.png` into an empty renderer when nothing can
be decoded. -/
theorem C5_decode_failure_witness :
    TextureFromPath (Spec.startEnv 0).images { textures := [] } "eye.png" =
      ({ textures := [] ++
          [{ info := { filtering := .TEXTURE_FILTERING_LINEAR, wrapU := .TEXTURE_WRAP_REPEAT,
                       wrapV := .TEXTURE_WRAP_REPEAT, width := 0, height := 0, data := none },
             images := [] }] },
       0) :=
  (C5_decode_failure_is_not_fatal (Spec.startEnv 0).images { textures := [] } "eye.png" rfl).1

/-- C4: `main` returns `1` when `SDL_Init` fails, `2` when it succeeds and
`IMG_Init` does not report PNG support, `4` when both succeed and the
constructor throws, and `0` when the instance is constructed and `Run` returns;
these are the only exit codes, each returned in exactly that case, and in the
three failure cases `main` returns without calling `Run`. -/
theorem C4_main_exit_codes (env : MainEnv) :
    (env.SDL_Init ≠ 0 →
      ∃ calls, Program.main env = some (1, calls) ∧ MainCall.Run ∉ calls) ∧
    (env.SDL_Init = 0 → env.IMG_Init &&& IMG_INIT_PNG ≠ IMG_INIT_PNG →
      ∃ calls, Program.main env = some (2, calls) ∧ MainCall.Run ∉ calls) ∧
    (env.SDL_Init = 0 → env.IMG_Init &&& IMG_INIT_PNG = IMG_INIT_PNG →
      ∀ err, GameInstance.ctor env.ctor = .error err →
      ∃ calls, Program.main env = some (4, calls) ∧ MainCall.Run ∉ calls) ∧
    (env.SDL_Init = 0 → env.IMG_Init &&& IMG_INIT_PNG = IMG_INIT_PNG →
      ∀ g g', GameInstance.ctor env.ctor = .ok g → GameInstance.Run env.frames g = some g' →
      ∃ calls, Program.main env = some (0, calls) ∧ MainCall.Run ∈ calls) ∧
    (∀ code calls, Program.main env = some (code, calls) →
      (code = 1 ↔ env.SDL_Init ≠ 0) ∧
      (code = 2 ↔ env.SDL_Init = 0 ∧ env.IMG_Init &&& IMG_INIT_PNG ≠ IMG_INIT_PNG) ∧
      (code = 4 ↔ env.SDL_Init = 0 ∧ env.IMG_Init &&& IMG_INIT_PNG = IMG_INIT_PNG ∧
        ∃ err, GameInstance.ctor env.ctor = .error err) ∧
      (code = 0 ↔ env.SDL_Init = 0 ∧ env.IMG_Init &&& IMG_INIT_PNG = IMG_INIT_PNG ∧
        ∃ g g', GameInstance.ctor env.ctor = .ok g ∧ GameInstance.Run env.frames g = some g') ∧
      (code = 0 ∨ code = 1 ∨ code = 2 ∨ code = 4) ∧
      (code ≠ 0 → MainCall.Run ∉ calls)) := by
  by_cases h1 : env.SDL_Init = 0
  · by_cases h2 : env.IMG_Init &&& IMG_INIT_PNG = IMG_INIT_PNG
    · cases hc : GameInstance.ctor env.ctor with
      | error err =>
        simp [Program.main, h1, h2, hc]
      | ok g =>
        cases hr : GameInstance.Run env.frames g with
        | none =>
          simp only [Program.main, h1, h2, hc, hr]
          refine ⟨by simp, by simp, by simp, ?_, by simp⟩
          intro _ _ g1 g' hg hrun
          cases hg
          rw [hr] at hrun
          cases hrun
        | some g' => simp [Program.main, h1, h2, hc, hr]
    · simp [Program.main, h1, h2]
  · simp [Program.main, h1]

/-- Witness of C4: one run of `main` for each of the four exit codes. -/
theorem C4_main_exit_codes_witness :
    (∃ calls, Program.main (Spec.mainEnv (-1) 0 true []) = some (1, calls) ∧
      MainCall.Run ∉ calls) ∧
    (∃ calls, Program.main (Spec.mainEnv 0 1 true []) = some (2, calls) ∧
      MainCall.Run ∉ calls) ∧
    (∃ calls, Program.main (Spec.mainEnv 0 2 false []) = some (4, calls) ∧
      MainCall.Run ∉ calls) ∧
    (∃ calls, Program.main (Spec.mainEnv 0 2 true [Spec.quitFrame]) = some (0, calls) ∧
      MainCall.Run ∈ calls) :=
  ⟨(C4_main_exit_codes (Spec.mainEnv (-1) 0 true [])).1 (by decide),
   (C4_main_exit_codes (Spec.mainEnv 0 1 true [])).2.1 rfl (by decide),
   (C4_main_exit_codes (Spec.mainEnv 0 2 false [])).2.2.1 rfl (by decide)
      .unableToCreateWindow rfl,
   (C4_main_exit_codes (Spec.mainEnv 0 2 true [Spec.quitFrame])).2.2.2.1 rfl (by decide)
      (GameInstance.setup (Spec.mainEnv 0 2 true []).ctor)
      (GameInstance.RunBody Spec.quitFrame (GameInstance.setup (Spec.mainEnv 0 2 true []).ctor))
      rfl rfl⟩

/-! ## The frame loop -/

namespace GameInstance

theorem OnEvent_calls (d : ℤ × ℤ) (e : SDL_Event) (g : GameInstance) :
    (OnEvent d e g).calls = g.calls ++ Spec.eventCalls [{ event := e, drawable := d }] := by
  unfold OnEvent Spec.eventCalls Spec.eventCalls
  dsimp only
  by_cases h1 : e.type = SDL_QUIT
  · rw [if_pos h1]
    split_ifs <;> simp
  · rw [if_neg h1]
    split_ifs <;> simp

theorem eventCalls_cons (p : PolledEvent) (ps : List PolledEvent) :
    Spec.eventCalls (p :: ps) = Spec.eventCalls [p] ++ Spec.eventCalls ps := by
  simp [Spec.eventCalls]

theorem PollEvents_calls (events : List PolledEvent) (g : GameInstance) :
    (PollEvents events g).calls = g.calls ++ Spec.eventCalls events := by
  induction events generalizing g with
  | nil => simp [PollEvents, Spec.eventCalls]
  | cons p ps ih =>
    have hstep : PollEvents (p :: ps) g = PollEvents ps (OnEvent p.drawable p.event g) := rfl
    rw [hstep, ih, OnEvent_calls, eventCalls_cons p ps, List.append_assoc]

theorem PollEvents_exiting (events : List PolledEvent) (g : GameInstance) :
    (PollEvents events g).exiting =
      (g.exiting || events.any (fun p => decide (p.event.type = SDL_QUIT))) := by
  induction events generalizing g with
  | nil => simp [PollEvents]
  | cons p ps ih =>
    have hstep : PollEvents (p :: ps) g = PollEvents ps (OnEvent p.drawable p.event g) := rfl
    rw [hstep, ih, OnEvent_exiting, List.any_cons, Bool.or_assoc]

theorem RunBody_exiting (f : Frame) (g : GameInstance) :
    (RunBody f g).exiting =
      (g.exiting || f.events.any (fun p => decide (p.event.type = SDL_QUIT))) := by
  rw [← PollEvents_exiting]
  rfl

theorem RunBody_calls (f : Frame) (g : GameInstance) :
    (RunBody f g).calls =
      g.calls ++ Spec.eventCalls f.events ++ [Call.Tick, Call.DrawAllScenes, Call.SwapWindow] := by
  rw [← PollEvents_calls]
  show ((PollEvents f.events g).calls ++ [Call.Tick] ++ [Call.DrawAllScenes]) ++ [Call.SwapWindow]
    = _
  simp

theorem eventCalls_no_frame (events : List PolledEvent) :
    Call.Tick ∉ Spec.eventCalls events ∧ Call.DrawAllScenes ∉ Spec.eventCalls events ∧
      Call.SwapWindow ∉ Spec.eventCalls events := by
  induction events with
  | nil => simp [Spec.eventCalls]
  | cons p ps ih =>
    obtain ⟨h1, h2, h3⟩ := ih
    unfold Spec.eventCalls
    split_ifs <;> simp [h1, h2, h3]

theorem mem_eventCalls {events : List PolledEvent} {p : PolledEvent} (h : p ∈ events) :
    Call.OnEvent p.event ∈ Spec.eventCalls events := by
  induction events with
  | nil => cases h
  | cons q qs ih =>
    unfold Spec.eventCalls
    rcases List.mem_cons.1 h with rfl | h'
    · split_ifs <;> simp
    · exact List.mem_append_right _ (ih h')

/-- While no quit event arrives, `Run` keeps iterating. -/
theorem Run_append_of_no_quit (before rest : List Frame) (g : GameInstance)
    (hrun : g.exiting = false)
    (hbefore : ∀ fr ∈ before, ∀ p ∈ fr.events, p.event.type ≠ SDL_QUIT) :
    Run (before ++ rest) g = Run rest (RunBodies before g) ∧
      (RunBodies before g).exiting = false := by
  induction before generalizing g with
  | nil => exact ⟨rfl, hrun⟩
  | cons f fs ih =>
    have hf : (RunBody f g).exiting = false := by
      rw [RunBody_exiting, hrun, Bool.false_or, Bool.eq_false_iff]
      intro hany
      obtain ⟨p, hp, hq⟩ := List.any_eq_true.1 hany
      exact hbefore f (List.mem_cons_self _ _) p hp (of_decide_eq_true hq)
    have hrest := ih (RunBody f g) hf
      (fun fr hfr => hbefore fr (List.mem_cons_of_mem _ hfr))
    have hstep : Run (f :: fs ++ rest) g = Run (fs ++ rest) (RunBody f g) := by
      rw [List.cons_append, Run, if_neg (by simp [hrun])]
    rw [hstep]
    exact hrest

theorem Run_of_exiting (frames : List Frame) (g : GameInstance) (h : g.exiting = true) :
    Run frames g = some g := by
  cases frames <;> simp [Run, h]

end GameInstance

/-- C2, as amended: once a quit event has been dispatched, the state is Exiting
and `Run` completes the iteration in progress: the events still pending are
dispatched, then `Tick`, `DrawAllScenes` and the window swap happen exactly once
each, and `Run` returns; no later frame is started. -/
theorem C2_quit_completes_the_frame_and_returns (before : List Frame) (f : Frame)
    (later : List Frame) (g : GameInstance)
    (hrun : g.exiting = false)
    (hbefore : ∀ fr ∈ before, ∀ p ∈ fr.events, p.event.type ≠ SDL_QUIT)
    (hquit : ∃ p ∈ f.events, p.event.type = SDL_QUIT) :
    GameInstance.Run (before ++ f :: later) g
      = some (GameInstance.RunBody f (GameInstance.RunBodies before g)) ∧
    (GameInstance.PollEvents f.events (GameInstance.RunBodies before g)).exiting = true ∧
    (GameInstance.RunBody f (GameInstance.RunBodies before g)).exiting = true ∧
    (GameInstance.RunBody f (GameInstance.RunBodies before g)).calls
      = (GameInstance.RunBodies before g).calls ++ Spec.eventCalls f.events
        ++ [Call.Tick, Call.DrawAllScenes, Call.SwapWindow] ∧
    (∃ e, e.type = SDL_QUIT ∧ Call.OnEvent e ∈ Spec.eventCalls f.events) ∧
    Call.Tick ∉ Spec.eventCalls f.events ∧
    Call.DrawAllScenes ∉ Spec.eventCalls f.events ∧
    Call.SwapWindow ∉ Spec.eventCalls f.events := by
  obtain ⟨hrunEq, hstill⟩ := GameInstance.Run_append_of_no_quit before (f :: later) g hrun hbefore
  obtain ⟨p, hp, hq⟩ := hquit
  have hany : f.events.any (fun p => decide (p.event.type = SDL_QUIT)) = true :=
    List.any_eq_true.2 ⟨p, hp, decide_eq_true hq⟩
  have hpoll : (GameInstance.PollEvents f.events (GameInstance.RunBodies before g)).exiting
      = true := by
    rw [GameInstance.PollEvents_exiting, hany, Bool.or_true]
  have hexit : (GameInstance.RunBody f (GameInstance.RunBodies before g)).exiting = true := by
    rw [GameInstance.RunBody_exiting, hany, Bool.or_true]
  refine ⟨?_, hpoll, hexit, GameInstance.RunBody_calls _ _,
    ⟨p.event, hq, GameInstance.mem_eventCalls hp⟩, GameInstance.eventCalls_no_frame _⟩
  rw [hrunEq, GameInstance.Run, if_neg (by simp [hstill])]
  exact GameInstance.Run_of_exiting _ _ hexit

/-- Witness of C2, as amended: a frame with a resize, then a frame with the quit
event, then a frame that is never started. -/
theorem C2_quit_completes_the_frame_witness :
    GameInstance.Run
        ([{ events := [{ event := Spec.resizeEvent, drawable := (640, 480) }], ticks := 16 }]
          ++ Spec.quitFrame :: [Spec.quitFrame])
        (GameInstance.setup (Spec.startEnv 0))
      = some (GameInstance.RunBody Spec.quitFrame (GameInstance.RunBodies
          [{ events := [{ event := Spec.resizeEvent, drawable := (640, 480) }], ticks := 16 }]
          (GameInstance.setup (Spec.startEnv 0)))) :=
  (C2_quit_completes_the_frame_and_returns
    [{ events := [{ event := Spec.resizeEvent, drawable := (640, 480) }], ticks := 16 }]
    Spec.quitFrame [Spec.quitFrame] (GameInstance.setup (Spec.startEnv 0)) rfl
    (by decide) ⟨_, List.mem_cons_self _ _, rfl⟩).1

/-- Counterexample to C2 as stated: with the quit event pending in the first
frame, `Run` dispatches it and then still performs `Tick`, `DrawAllScenes` and
the window swap of that frame before it returns. -/
theorem C2_counterexample_frame_after_quit :
    GameInstance.Run [Spec.quitFrame] (GameInstance.setup (Spec.startEnv 0))
      = some (GameInstance.RunBody Spec.quitFrame (GameInstance.setup (Spec.startEnv 0))) ∧
    (GameInstance.RunBody Spec.quitFrame (GameInstance.setup (Spec.startEnv 0))).calls
      = [Call.OnEvent Spec.quitEvent, Call.Tick, Call.DrawAllScenes, Call.SwapWindow] ∧
    Spec.quitEvent.type = SDL_QUIT ∧
    ¬ Spec.NoFrameAfterQuit
      (GameInstance.RunBody Spec.quitFrame (GameInstance.setup (Spec.startEnv 0))).calls := by
  refine ⟨rfl, rfl, rfl, ?_⟩
  intro h
  have h1 := (h [] [Call.Tick, Call.DrawAllScenes, Call.SwapWindow] Spec.quitEvent rfl rfl).1
  exact h1 (List.mem_cons_self _ _)

/-! ## RefreshMeshes and Tick -/

namespace GameInstance

theorem foldl_update_apply {n : ℕ} {α : Type} (f : Fin n → α → α) (l : List (Fin n))
    (hnd : l.Nodup) (ms : Fin n → α) (i : Fin n) :
    (l.foldl (fun m j => Function.update m j (f j (m j))) ms) i
      = if i ∈ l then f i (ms i) else ms i := by
  induction l generalizing ms with
  | nil => simp
  | cons j l ih =>
    rw [List.foldl_cons, ih (List.nodup_cons.1 hnd).2]
    by_cases hij : i = j
    · subst hij
      have hnot : i ∉ l := (List.nodup_cons.1 hnd).1
      simp [hnot]
    · simp [hij, Function.update_noteq hij]

/-- The first loop of `RefreshMeshes` reaches every alpha mesh and sets its
model matrix, and nothing else of it. -/
theorem RefreshMeshes_alpha (g : GameInstance) (i : Fin 8) :
    (RefreshMeshes g).alphaMeshes i =
      { g.alphaMeshes i with
        model := .mul (.rotate (Spec.angle 8 i.val g.rotation) rot1) trans1 } := by
  have h := foldl_update_apply
    (fun (j : Fin 8) (m : Ego.Mesh) =>
      { m with model := .mul (.rotate (Spec.angle 8 j.val g.rotation) rot1) trans1 })
    (List.finRange 8) (List.nodup_finRange 8) g.alphaMeshes i
  rw [if_pos (List.mem_finRange i)] at h
  exact h

/-- The second loop of `RefreshMeshes`, likewise for the solid meshes. -/
theorem RefreshMeshes_solid (g : GameInstance) (i : Fin 8) :
    (RefreshMeshes g).solidMeshes i =
      { g.solidMeshes i with
        model := .mul (.rotate (Spec.angle 8 i.val g.rotation) rot2) trans2 } := by
  have h := foldl_update_apply
    (fun (j : Fin 8) (m : Ego.Mesh) =>
      { m with model := .mul (.rotate (Spec.angle 8 j.val g.rotation) rot2) trans2 })
    (List.finRange 8) (List.nodup_finRange 8) g.solidMeshes i
  rw [if_pos (List.mem_finRange i)] at h
  exact h

theorem Tick_alpha (t : ℕ) (g : GameInstance) (i : Fin 8) :
    ((Tick t g).alphaMeshes i).model =
      .mul (.rotate (Spec.angle 8 i.val (Tick t g).rotation) rot1) trans1 := by
  have h := RefreshMeshes_alpha
    { g with calls := g.calls ++ [Call.Tick], now := t % 2 ^ 32,
             elapsed := (Tick t g).elapsed, rotation := (Tick t g).rotation } i
  have hT : (Tick t g).alphaMeshes = (RefreshMeshes
    { g with calls := g.calls ++ [Call.Tick], now := t % 2 ^ 32,
             elapsed := (Tick t g).elapsed, rotation := (Tick t g).rotation }).alphaMeshes := rfl
  rw [hT, h]

theorem Tick_solid (t : ℕ) (g : GameInstance) (i : Fin 8) :
    ((Tick t g).solidMeshes i).model =
      .mul (.rotate (Spec.angle 8 i.val (Tick t g).rotation) rot2) trans2 := by
  have h := RefreshMeshes_solid
    { g with calls := g.calls ++ [Call.Tick], now := t % 2 ^ 32,
             elapsed := (Tick t g).elapsed, rotation := (Tick t g).rotation } i
  have hT : (Tick t g).solidMeshes = (RefreshMeshes
    { g with calls := g.calls ++ [Call.Tick], now := t % 2 ^ 32,
             elapsed := (Tick t g).elapsed, rotation := (Tick t g).rotation }).solidMeshes := rfl
  rw [hT, h]

end GameInstance

/-! ## The clock -/


namespace GameInstance

theorem unsigned_diff_lt (now then_ : ℕ) : (now % 2 ^ 32 + 2 ^ 32 - then_ % 2 ^ 32) % 2 ^ 32 < 2 ^ 32 :=
  Nat.mod_lt _ (by positivity)

theorem unsigned_diff_of_le {now then_ : ℕ} (h : then_ ≤ now) (hnow : now < 2 ^ 32) :
    (now % 2 ^ 32 + 2 ^ 32 - then_ % 2 ^ 32) % 2 ^ 32 = now - then_ := by
  have h1 : now % 2 ^ 32 = now := Nat.mod_eq_of_lt hnow
  have h2 : then_ % 2 ^ 32 = then_ := Nat.mod_eq_of_lt (lt_of_le_of_lt h hnow)
  rw [h1, h2]
  have h3 : now + 2 ^ 32 - then_ = (now - then_) + 2 ^ 32 := by omega
  rw [h3, Nat.add_mod_right]
  exact Nat.mod_eq_of_lt (by omega)

theorem setup_valid (env : CtorEnv) : F32.Valid (setup env).rotation := by
  have h : (setup env).rotation = .fin 0 := by
    unfold setup
    rfl
  rw [h]
  decide

theorem Tick_elapsed_fin (t : ℕ) (g : GameInstance) :
    ∃ e : ℕ, (Tick t g).elapsed = .fin (e : ℤ) ∧ e ≤ 2 ^ 172 := by
  rw [Tick_elapsed]
  exact F32.elapsed_of_lt (unsigned_diff_lt t g.then_)

theorem Tick_rotation_eq (t : ℕ) (g : GameInstance) :
    (Tick t g).rotation = F32.add g.rotation (Tick t g).elapsed := rfl

theorem Tick_rotation_le (t : ℕ) (g : GameInstance) (hv : F32.Valid g.rotation) :
    g.rotation ≤ (Tick t g).rotation ∧ F32.Valid (Tick t g).rotation := by
  obtain ⟨e, he, _⟩ := Tick_elapsed_fin t g
  rw [Tick_rotation_eq, he]
  exact ⟨F32.le_add_of_nonneg hv (Int.natCast_nonneg e), F32.valid_add_of_valid hv _⟩

theorem Ticks_append (ts us : List ℕ) (g : GameInstance) :
    Ticks (ts ++ us) g = Ticks us (Ticks ts g) := by
  unfold Ticks
  rw [List.foldl_append]

theorem Ticks_valid (ts : List ℕ) (g : GameInstance) (hv : F32.Valid g.rotation) :
    F32.Valid (Ticks ts g).rotation := by
  induction ts generalizing g with
  | nil => exact hv
  | cons t ts ih => exact ih (Tick t g) (Tick_rotation_le t g hv).2

theorem Ticks_take_succ (ts : List ℕ) (k : ℕ) (hk : k < ts.length) (g : GameInstance) :
    Ticks (ts.take (k + 1)) g = Tick (ts.get ⟨k, hk⟩) (Ticks (ts.take k) g) := by
  rw [List.take_succ, Ticks_append]
  simp [List.getElem?_eq_getElem hk, Ticks]

end GameInstance

/-- C7: when `then ≤ now < 2^32`, `Tick` sets `elapsed` to
`float(now - then) * 0.001F`, a finite value that is `≥ 0` and within the
fraction `2^-22` of `(now - then) / 1000`, and leaves `then = now`; so `now ≥ then`
holds again at the next tick if the tick counter has not decreased. -/
theorem C7_elapsed_nonneg_and_then_is_now (g : GameInstance) (now : ℕ)
    (hle : g.then_ ≤ now) (hnow : now < 2 ^ 32) :
    (GameInstance.Tick now g).elapsed = F32.mul (F32.ofNat (now - g.then_)) (F32.lit 1 1000) ∧
    F32.Finite (GameInstance.Tick now g).elapsed ∧
    F32.fin 0 ≤ (GameInstance.Tick now g).elapsed ∧
    |F32.toRat (GameInstance.Tick now g).elapsed - ((now - g.then_ : ℕ) : ℚ) / 1000|
      ≤ ((now - g.then_ : ℕ) : ℚ) / 1000 / 2 ^ 22 ∧
    (GameInstance.Tick now g).now = now ∧
    (GameInstance.Tick now g).then_ = now ∧
    (∀ next, now ≤ next → (GameInstance.Tick now g).then_ ≤ next) := by
  have hthen : (GameInstance.Tick now g).then_ = now := by
    rw [GameInstance.Tick_then]
    exact Nat.mod_eq_of_lt hnow
  have hel : (GameInstance.Tick now g).elapsed
      = F32.mul (F32.ofNat (now - g.then_)) (F32.lit 1 1000) := by
    rw [GameInstance.Tick_elapsed, GameInstance.unsigned_diff_of_le hle hnow]
  obtain ⟨e, he, _, hclose⟩ := F32.elapsed_close (show now - g.then_ < 2 ^ 32 by omega)
  refine ⟨hel, ?_, ?_, ?_, ?_, hthen, ?_⟩
  · rw [hel, he]
    trivial
  · rw [hel, he]
    exact Int.natCast_nonneg e
  · rw [hel, he]
    exact hclose
  · rw [GameInstance.Tick_now]
    exact Nat.mod_eq_of_lt hnow
  · intro next hnext
    rw [hthen]
    exact hnext

/-- Witness of C7: the first tick, `16` ms after a start at tick count `0`. -/
theorem C7_elapsed_witness :
    (GameInstance.Tick 16 (GameInstance.setup (Spec.startEnv 0))).elapsed
      = F32.mul (F32.ofNat (16 - (GameInstance.setup (Spec.startEnv 0)).then_))
          (F32.lit 1 1000) ∧
    F32.fin 0 ≤ (GameInstance.Tick 16 (GameInstance.setup (Spec.startEnv 0))).elapsed ∧
    (GameInstance.Tick 16 (GameInstance.setup (Spec.startEnv 0))).then_ = 16 :=
  ⟨(C7_elapsed_nonneg_and_then_is_now (GameInstance.setup (Spec.startEnv 0)) 16
      (by decide) (by decide)).1,
   (C7_elapsed_nonneg_and_then_is_now (GameInstance.setup (Spec.startEnv 0)) 16
      (by decide) (by decide)).2.2.1,
   (C7_elapsed_nonneg_and_then_is_now (GameInstance.setup (Spec.startEnv 0)) 16
      (by decide) (by decide)).2.2.2.2.2.1⟩

/-- C8: the elapsed time of every tick is non-negative, so along every sequence
of ticks the rotation after a tick is `≥` the rotation before it, for a rotation
that is a `float` value other than NaN, which it is at the start and remains
after every tick; `OnEvent` and `RefreshMeshes` do not change the rotation. -/
theorem C8_rotation_non_decreasing (g : GameInstance) (ts : List ℕ)
    (hvalid : F32.Valid g.rotation) :
    (∀ t, g.rotation ≤ (GameInstance.Tick t g).rotation ∧
      F32.Valid (GameInstance.Tick t g).rotation) ∧
    (∀ k, k < ts.length →
      F32.fin 0 ≤ (GameInstance.Ticks (ts.take (k + 1)) g).elapsed ∧
      (GameInstance.Ticks (ts.take (k + 1)) g).rotation
        = F32.add (GameInstance.Ticks (ts.take k) g).rotation
            (GameInstance.Ticks (ts.take (k + 1)) g).elapsed ∧
      (GameInstance.Ticks (ts.take k) g).rotation
        ≤ (GameInstance.Ticks (ts.take (k + 1)) g).rotation) ∧
    (∀ d e, (GameInstance.OnEvent d e g).rotation = g.rotation) ∧
    (GameInstance.RefreshMeshes g).rotation = g.rotation ∧
    (∀ env, F32.Valid (GameInstance.setup env).rotation) := by
  refine ⟨fun t => GameInstance.Tick_rotation_le t g hvalid, ?_,
    fun d e => GameInstance.OnEvent_rotation d e g, rfl, fun _ => GameInstance.setup_valid _⟩
  intro k hk
  rw [GameInstance.Ticks_take_succ ts k hk g]
  obtain ⟨e, he, _⟩ := GameInstance.Tick_elapsed_fin (ts.get ⟨k, hk⟩)
    (GameInstance.Ticks (ts.take k) g)
  refine ⟨?_, rfl, ?_⟩
  · rw [he]
    exact Int.natCast_nonneg e
  · exact (GameInstance.Tick_rotation_le _ _ (GameInstance.Ticks_valid _ g hvalid)).1

/-- Witness of C8: the ticks at `16` and `33` ms after a start at tick count `0`. -/
theorem C8_rotation_witness :
    (GameInstance.Ticks ([16, 33].take 1) (GameInstance.setup (Spec.startEnv 0))).rotation
      ≤ (GameInstance.Ticks ([16, 33].take (1 + 1))
          (GameInstance.setup (Spec.startEnv 0))).rotation :=
  ((C8_rotation_non_decreasing (GameInstance.setup (Spec.startEnv 0)) [16, 33]
    (by decide)).2.1 1 (by decide)).2.2

/-! ## Accumulated rotation -/

namespace GameInstance

theorem Ticks_cons (t : ℕ) (ts : List ℕ) (g : GameInstance) :
    Ticks (t :: ts) g = Ticks ts (Tick t g) := rfl

theorem Tick_elapsed_of_le {g : GameInstance} {t : ℕ} (hle : g.then_ ≤ t) (ht : t < 2 ^ 32) :
    (Tick t g).elapsed = Spec.elapsed g.then_ t := by
  rw [Tick_elapsed, unsigned_diff_of_le hle ht]
  rfl

theorem Tick_then_of_lt {g : GameInstance} {t : ℕ} (ht : t < 2 ^ 32) : (Tick t g).then_ = t := by
  rw [Tick_then]
  exact Nat.mod_eq_of_lt ht

theorem nonDecreasing_cons {a t : ℕ} {ts : List ℕ} :
    Spec.nonDecreasing a (t :: ts) = true ↔ a ≤ t ∧ Spec.nonDecreasing t ts = true := by
  simp [Spec.nonDecreasing]

/-- After ticks at non-decreasing timestamps the rotation is the left-to-right
binary32 sum of the elapsed times. -/
theorem Ticks_rotation (ts : List ℕ) (g : GameInstance)
    (hsorted : Spec.nonDecreasing g.then_ ts = true) (hlt : ∀ t ∈ ts, t < 2 ^ 32) :
    (Ticks ts g).rotation = (Spec.elapsedValues g.then_ ts).foldl F32.add g.rotation := by
  induction ts generalizing g with
  | nil => rfl
  | cons t ts ih =>
    have ht : t < 2 ^ 32 := hlt t (List.mem_cons_self _ _)
    have hle : g.then_ ≤ t := (nonDecreasing_cons.1 hsorted).1
    have hthen : (Tick t g).then_ = t := Tick_then_of_lt ht
    have hrest : Spec.nonDecreasing (Tick t g).then_ ts = true := by
      rw [hthen]
      exact (nonDecreasing_cons.1 hsorted).2
    rw [Ticks_cons, ih (Tick t g) hrest (fun u hu => hlt u (List.mem_cons_of_mem _ hu)), hthen]
    show _ = List.foldl F32.add (F32.add g.rotation (Spec.elapsed g.then_ t)) _
    rw [Tick_rotation_eq, Tick_elapsed_of_le hle ht]

/-- After the `k+1`-st of these ticks, `elapsed` is the elapsed time between
the last two timestamps. -/
theorem Ticks_elapsed (ts : List ℕ) (g : GameInstance)
    (hsorted : Spec.nonDecreasing g.then_ ts = true) (hlt : ∀ t ∈ ts, t < 2 ^ 32)
    (k : ℕ) (hk : k < ts.length) :
    (Ticks (ts.take (k + 1)) g).elapsed
      = Spec.elapsed ((g.then_ :: ts).getD k 0) ((g.then_ :: ts).getD (k + 1) 0) := by
  induction ts generalizing g k with
  | nil => simp at hk
  | cons t ts ih =>
    have ht : t < 2 ^ 32 := hlt t (List.mem_cons_self _ _)
    have hle : g.then_ ≤ t := (nonDecreasing_cons.1 hsorted).1
    have hthen : (Tick t g).then_ = t := Tick_then_of_lt ht
    have hrest : Spec.nonDecreasing (Tick t g).then_ ts = true := by
      rw [hthen]
      exact (nonDecreasing_cons.1 hsorted).2
    cases k with
    | zero =>
      show (Tick t g).elapsed = _
      rw [Tick_elapsed_of_le hle ht]
      rfl
    | succ k =>
      have hk' : k < ts.length := by simpa using hk
      have := ih (Tick t g) hrest (fun u hu => hlt u (List.mem_cons_of_mem _ hu)) k hk'
      rw [hthen] at this
      rw [List.take_succ_cons, Ticks_cons, this]
      rfl

end GameInstance


namespace F32

theorem lit_16_1000 : lit 16 1000 = .fin (8589935 * 2 ^ 120) := by decide

theorem lit_17_1000 : lit 17 1000 = .fin (9126806 * 2 ^ 120) := by decide

theorem lit_33_1000 : lit 33 1000 = .fin (8858370 * 2 ^ 121) := by decide

end F32

/-- C9, as amended: starting from any state, for ticks at non-decreasing
timestamps below `2^32`, the `k`-th tick's elapsed is
`float(tk - t(k-1)) * 0.001F` and the rotation after the ticks is the binary32
sum, taken tick by tick, of the elapsed values.  For the timestamps `0, 16, 33`
after a start with rotation `0` the elapsed values are the `float` values
`0.016F` and `0.017F` and the rotation ends at `0.033F`, each within `10^-9` of
the decimal number. -/
theorem C9_rotation_is_the_float_sum_of_elapsed (g : GameInstance) (ts : List ℕ)
    (hsorted : Spec.nonDecreasing g.then_ ts = true) (hlt : ∀ t ∈ ts, t < 2 ^ 32) :
    (∀ k, k < ts.length →
      (GameInstance.Ticks (ts.take (k + 1)) g).elapsed
        = Spec.elapsed ((g.then_ :: ts).getD k 0) ((g.then_ :: ts).getD (k + 1) 0)) ∧
    (GameInstance.Ticks ts g).rotation
      = (Spec.elapsedValues g.then_ ts).foldl F32.add g.rotation ∧
    (GameInstance.setup (Spec.startEnv 0)).rotation = .fin 0 ∧
    (GameInstance.setup (Spec.startEnv 0)).then_ = 0 ∧
    Spec.elapsedValues 0 [16, 33] = [F32.lit 16 1000, F32.lit 17 1000] ∧
    (GameInstance.Ticks [16, 33] (GameInstance.setup (Spec.startEnv 0))).rotation
      = F32.lit 33 1000 ∧
    |F32.toRat (F32.lit 16 1000) - 16 / 1000| < 1 / 10 ^ 9 ∧
    |F32.toRat (F32.lit 17 1000) - 17 / 1000| < 1 / 10 ^ 9 ∧
    |F32.toRat (F32.lit 33 1000) - 33 / 1000| < 1 / 10 ^ 9 := by
  refine ⟨fun k hk => GameInstance.Ticks_elapsed ts g hsorted hlt k hk,
    GameInstance.Ticks_rotation ts g hsorted hlt, rfl, rfl, by decide, by decide, ?_, ?_, ?_⟩
  · rw [F32.lit_16_1000, abs_lt]
    constructor <;> norm_num [F32.toRat]
  · rw [F32.lit_17_1000, abs_lt]
    constructor <;> norm_num [F32.toRat]
  · rw [F32.lit_33_1000, abs_lt]
    constructor <;> norm_num [F32.toRat]

/-- Witness of C9, as amended: the two ticks of the scenario. -/
theorem C9_rotation_witness :
    (GameInstance.Ticks [16, 33] (GameInstance.setup (Spec.startEnv 0))).rotation
      = (Spec.elapsedValues (GameInstance.setup (Spec.startEnv 0)).then_ [16, 33]).foldl
          F32.add (GameInstance.setup (Spec.startEnv 0)).rotation :=
  (C9_rotation_is_the_float_sum_of_elapsed (GameInstance.setup (Spec.startEnv 0)) [16, 33]
    (by decide) (by decide)).2.1

namespace GameInstance

theorem elapsed_16 : Spec.elapsed 0 16 = F32.lit 16 1000 := by decide

theorem stalled_add :
    F32.add (.fin (8589935 * 2 ^ 145)) (F32.lit 16 1000) = .fin (8589935 * 2 ^ 145) := by decide

/-- At the rotation `536870.9375` a tick of `16` ms leaves the rotation as
it is. -/
theorem Tick_stalled (g : GameInstance) (t : ℕ) (hrot : g.rotation = .fin (8589935 * 2 ^ 145))
    (hthen : g.then_ + 16 = t) (ht : t < 2 ^ 32) :
    (Tick t g).rotation = .fin (8589935 * 2 ^ 145) ∧ (Tick t g).elapsed = F32.lit 16 1000 := by
  have hel : (Tick t g).elapsed = F32.lit 16 1000 := by
    rw [Tick_elapsed_of_le (by omega) ht, ← elapsed_16]
    unfold Spec.elapsed
    congr 2
    omega
  refine ⟨?_, hel⟩
  rw [Tick_rotation_eq, hel, hrot, stalled_add]

theorem Ticks_stalled (n T : ℕ) (g : GameInstance)
    (hrot : g.rotation = .fin (8589935 * 2 ^ 145))
    (hthen : g.then_ = T) (hlt : T + 16 * n < 2 ^ 32) :
    (Ticks ((List.range n).map (fun i => T + 16 * (i + 1))) g).rotation
        = .fin (8589935 * 2 ^ 145) ∧
      (Ticks ((List.range n).map (fun i => T + 16 * (i + 1))) g).then_ = T + 16 * n ∧
      (0 < n → (Ticks ((List.range n).map (fun i => T + 16 * (i + 1))) g).elapsed
        = F32.lit 16 1000) := by
  induction n with
  | zero => exact ⟨hrot, hthen, fun h => absurd h (lt_irrefl 0)⟩
  | succ n ih =>
    obtain ⟨h1, h2, _⟩ := ih (by omega)
    rw [List.range_succ, List.map_append, Ticks_append]
    have hstep := Tick_stalled
      (Ticks ((List.range n).map (fun i => T + 16 * (i + 1))) g)
      (T + 16 * (n + 1)) h1 (by rw [h2]; ring) hlt
    refine ⟨hstep.1, ?_, fun _ => hstep.2⟩
    show (Tick _ _).then_ = _
    rw [Tick_then_of_lt hlt]

end GameInstance

/-- Counterexample to C9 as stated: after a first tick at `2^29` ms the
rotation is `536870.9375`, where neighbouring `float` values are `0.0625` apart;
each of the following `64` ticks adds an elapsed time of `0.016`, which is
rounded away, so the rotation stays where it was, more than `0.99` below
`(tk - t0) * 0.001`. -/
theorem C9_counterexample_rotation_stalls :
    Spec.nonDecreasing 0 Spec.longPause = true ∧
    (∀ t ∈ Spec.longPause, t < 2 ^ 32) ∧
    Spec.longPause.getLast? = some (2 ^ 29 + 1024) ∧
    (GameInstance.setup (Spec.startEnv 0)).then_ = 0 ∧
    (GameInstance.setup (Spec.startEnv 0)).rotation = .fin 0 ∧
    (GameInstance.Ticks Spec.longPause (GameInstance.setup (Spec.startEnv 0))).rotation
      = (GameInstance.Ticks [2 ^ 29] (GameInstance.setup (Spec.startEnv 0))).rotation ∧
    (GameInstance.Ticks Spec.longPause (GameInstance.setup (Spec.startEnv 0))).elapsed
      = F32.lit 16 1000 ∧
    (GameInstance.Ticks Spec.longPause (GameInstance.setup (Spec.startEnv 0))).rotation
      ≠ F32.mul (F32.ofNat (2 ^ 29 + 1024 - 0)) (F32.lit 1 1000) ∧
    F32.toRat (GameInstance.Ticks Spec.longPause
        (GameInstance.setup (Spec.startEnv 0))).rotation + 99 / 100
      < ((2 ^ 29 + 1024 - 0 : ℕ) : ℚ) * (1 / 1000) := by
  have hfirst : (GameInstance.Tick (2 ^ 29) (GameInstance.setup (Spec.startEnv 0))).rotation
      = .fin (8589935 * 2 ^ 145) := by decide
  have hlong : GameInstance.Ticks Spec.longPause (GameInstance.setup (Spec.startEnv 0))
      = GameInstance.Ticks ((List.range 64).map (fun i => 2 ^ 29 + 16 * (i + 1)))
          (GameInstance.Tick (2 ^ 29) (GameInstance.setup (Spec.startEnv 0))) := by
    unfold Spec.longPause
    rw [GameInstance.Ticks_cons]
  obtain ⟨hrot', _, hel⟩ := GameInstance.Ticks_stalled 64 (2 ^ 29)
    (GameInstance.Tick (2 ^ 29) (GameInstance.setup (Spec.startEnv 0))) hfirst
    (by decide) (by norm_num)
  have hrot : (GameInstance.Ticks Spec.longPause
      (GameInstance.setup (Spec.startEnv 0))).rotation = .fin (8589935 * 2 ^ 145) := by
    rw [hlong]
    exact hrot'
  refine ⟨by decide, by decide, by decide, rfl, rfl, ?_, ?_, ?_, ?_⟩
  · rw [hrot]
    exact hfirst.symm
  · rw [hlong]
    exact hel (by norm_num)
  · rw [hrot]
    decide
  · rw [hrot]
    norm_num [F32.toRat]

/-! ## The order inside a tick -/

/-- C6, as amended: within one tick `elapsed` is computed from the previous
`then`, then the rotation is advanced by `elapsed`, then `RefreshMeshes` runs,
then `then` is set to `now`; so the angles that `Tick` applies to the meshes are
computed from the rotation that already includes this tick's elapsed. -/
theorem C6_refresh_uses_the_advanced_rotation (g : GameInstance) (ticks : ℕ) (i : Fin 8) :
    (GameInstance.Tick ticks g).elapsed
      = F32.mul (F32.ofNat ((ticks % 2 ^ 32 + 2 ^ 32 - g.then_ % 2 ^ 32) % 2 ^ 32))
          (F32.lit 1 1000) ∧
    (GameInstance.Tick ticks g).rotation
      = F32.add g.rotation (GameInstance.Tick ticks g).elapsed ∧
    ((GameInstance.Tick ticks g).alphaMeshes i).model
      = .mul (.rotate (Spec.angle 8 i.val
          (F32.add g.rotation (GameInstance.Tick ticks g).elapsed)) GameInstance.rot1)
          GameInstance.trans1 ∧
    ((GameInstance.Tick ticks g).solidMeshes i).model
      = .mul (.rotate (Spec.angle 8 i.val
          (F32.add g.rotation (GameInstance.Tick ticks g).elapsed)) GameInstance.rot2)
          GameInstance.trans2 ∧
    (GameInstance.Tick ticks g).now = ticks % 2 ^ 32 ∧
    (GameInstance.Tick ticks g).then_ = ticks % 2 ^ 32 :=
  ⟨rfl, rfl, GameInstance.Tick_alpha ticks g i, GameInstance.Tick_solid ticks g i, rfl, rfl⟩

/-- Counterexample to C6 as stated: at the first tick, `16` ms after the start,
the rotation held before the tick is `0`, which would give the alpha mesh of
index `0` the angle `0`; the tick gives it the angle `0.016F`, the rotation after
`elapsed` has been added. -/
theorem C6_counterexample_angle_uses_new_rotation :
    (GameInstance.setup (Spec.startEnv 0)).rotation = .fin 0 ∧
    Spec.angle 8 0 (GameInstance.setup (Spec.startEnv 0)).rotation = .fin 0 ∧
    (GameInstance.Tick 16 (GameInstance.setup (Spec.startEnv 0))).elapsed = F32.lit 16 1000 ∧
    ((GameInstance.Tick 16 (GameInstance.setup (Spec.startEnv 0))).alphaMeshes 0).model
      = .mul (.rotate (F32.lit 16 1000) GameInstance.rot1) GameInstance.trans1 ∧
    ((GameInstance.Tick 16 (GameInstance.setup (Spec.startEnv 0))).alphaMeshes 0).model
      ≠ .mul (.rotate (Spec.angle 8 0 (GameInstance.setup (Spec.startEnv 0)).rotation)
          GameInstance.rot1) GameInstance.trans1 ∧
    ((GameInstance.Tick 16 (GameInstance.setup (Spec.startEnv 0))).solidMeshes 0).model
      ≠ .mul (.rotate (Spec.angle 8 0 (GameInstance.setup (Spec.startEnv 0)).rotation)
          GameInstance.rot2) GameInstance.trans2 := by
  refine ⟨rfl, by decide, by decide, by decide, by decide, by decide⟩

/-! ## The angles of the meshes -/

namespace F32

/-- Two binary32 sums with the same second summand: the difference of the
results deviates from the difference of the first summands by the two rounding
errors at most. -/
theorem add_fin_diff_bound {A A' C D x : ℤ} (hA : 0 ≤ A) (hA' : 0 ≤ A')
    (hlo : -D ≤ A' - A - C) (hhi : A' - A - C ≤ D)
    (hsum' : A + A' + 2 ^ 24 * D ≤ 2 ^ 153)
    (hx : x.natAbs ≤ 2 ^ 275) :
    |toRat (add (.fin A') (.fin x)) - toRat (add (.fin A) (.fin x)) - toRat (.fin C)|
      ≤ 1 / 2 ^ 20 + |toRat (.fin x)| / 2 ^ 23 := by
  have hxabs : |x| ≤ 2 ^ 275 := by
    have : |x| = (x.natAbs : ℤ) := Int.abs_eq_natAbs x
    rw [this]
    exact_mod_cast hx
  have hD : |A' - A - C| ≤ D := abs_le.2 ⟨hlo, hhi⟩
  have hsum : A + A' + 2 ^ 24 * |A' - A - C| ≤ 2 ^ 153 := by
    have := mul_le_mul_of_nonneg_left hD (show (0 : ℤ) ≤ 2 ^ 24 by positivity)
    linarith
  have hnn : 0 ≤ (2 : ℤ) ^ 24 * |A' - A - C| := by positivity
  have hAle : A ≤ 2 ^ 153 := by linarith
  have hA'le : A' ≤ 2 ^ 153 := by linarith
  have hb : ∀ B : ℤ, 0 ≤ B → B ≤ 2 ^ 153 → (B + x).natAbs ≤ 2 ^ 276 := by
    intro B hB0 hB
    have h1 : |B + x| ≤ |B| + |x| := abs_add B x
    have h2 : |B| = B := abs_of_nonneg hB0
    have h3 : ((B + x).natAbs : ℤ) = |B + x| := (Int.abs_eq_natAbs _).symm
    have h4 : ((B + x).natAbs : ℤ) ≤ 2 ^ 276 := by
      rw [h3]
      calc |B + x| ≤ |B| + |x| := h1
        _ ≤ 2 ^ 153 + 2 ^ 275 := by rw [h2]; exact add_le_add hB hxabs
        _ ≤ 2 ^ 276 := by norm_num
    exact_mod_cast h4
  obtain ⟨c, hc, hcerr⟩ := add_fin_err (hb A hA hAle)
  obtain ⟨c', hc', hc'err⟩ := add_fin_err (hb A' hA' hA'le)
  rw [hc, hc', toRat_fin, toRat_fin, toRat_fin, toRat_fin]
  -- the integer inequality
  have h1 : |A + x| ≤ A + |x| := by
    calc |A + x| ≤ |A| + |x| := abs_add A x
      _ = A + |x| := by rw [abs_of_nonneg hA]
  have h2 : |A' + x| ≤ A' + |x| := by
    calc |A' + x| ≤ |A'| + |x| := abs_add A' x
      _ = A' + |x| := by rw [abs_of_nonneg hA']
  have htri : |c' - c - C| ≤ |c' - (A' + x)| + |c - (A + x)| + |A' - A - C| := by
    have e : c' - c - C = (c' - (A' + x)) + (-(c - (A + x))) + (A' - A - C) := by ring
    calc |c' - c - C| = |(c' - (A' + x)) + (-(c - (A + x))) + (A' - A - C)| := by rw [← e]
      _ ≤ |(c' - (A' + x)) + (-(c - (A + x)))| + |A' - A - C| := abs_add _ _
      _ ≤ |c' - (A' + x)| + |-(c - (A + x))| + |A' - A - C| :=
          add_le_add_right (abs_add _ _) _
      _ = |c' - (A' + x)| + |c - (A + x)| + |A' - A - C| := by rw [abs_neg]
  have hint : 2 ^ 24 * |c' - c - C| ≤ 2 ^ 153 + 2 * |x| := by
    have := mul_le_mul_of_nonneg_left htri (show (0 : ℤ) ≤ 2 ^ 24 by positivity)
    linarith
  -- cast to the rationals
  have hq : ((2 : ℚ) ^ 24) * |(c' : ℚ) - c - C| ≤ 2 ^ 153 + 2 * |(x : ℚ)| := by
    have := (Int.cast_le (R := ℚ)).2 hint
    push_cast at this
    exact this
  have e1 : (c' : ℚ) / 2 ^ 149 - c / 2 ^ 149 - C / 2 ^ 149 = ((c' : ℚ) - c - C) / 2 ^ 149 := by
    ring
  rw [e1, abs_div, abs_div, abs_of_pos (show (0 : ℚ) < 2 ^ 149 by positivity)]
  rw [div_le_iff₀ (by positivity)]
  have e2 : (1 / 2 ^ 20 + |(x : ℚ)| / 2 ^ 149 / 2 ^ 23) * 2 ^ 149
      = (2 ^ 153 + 2 * |(x : ℚ)|) / 2 ^ 24 := by
    field_simp
    ring
  rw [e2, le_div_iff₀ (by positivity)]
  linarith

theorem angle_step : div (mul glm.pi (lit 2 1)) (ofNat 8) = .fin (13176795 * 2 ^ 125) := by
  decide

theorem angle_base_0 : mul (ofNat 0) (.fin (13176795 * 2 ^ 125)) = .fin 0 := by decide

theorem angle_base_1 : mul (ofNat 1) (.fin (13176795 * 2 ^ 125)) = .fin (13176795 * 2 ^ 125) := by
  decide

theorem angle_base_2 : mul (ofNat 2) (.fin (13176795 * 2 ^ 125)) = .fin (13176795 * 2 ^ 126) := by
  decide

theorem angle_base_3 : mul (ofNat 3) (.fin (13176795 * 2 ^ 125)) = .fin (2470649 * 2 ^ 129) := by
  decide

theorem angle_base_4 : mul (ofNat 4) (.fin (13176795 * 2 ^ 125)) = .fin (13176795 * 2 ^ 127) := by
  decide

theorem angle_base_5 : mul (ofNat 5) (.fin (13176795 * 2 ^ 125)) = .fin (8235497 * 2 ^ 128) := by
  decide

theorem angle_base_6 : mul (ofNat 6) (.fin (13176795 * 2 ^ 125)) = .fin (2470649 * 2 ^ 130) := by
  decide

theorem angle_base_7 : mul (ofNat 7) (.fin (13176795 * 2 ^ 125)) = .fin (360303 * 2 ^ 133) := by
  decide

end F32

namespace glm

theorem pi_eq : pi = .fin (13176795 * 2 ^ 127) := by decide

/-- The constant `glm::pi<float>()` is within half a spacing of `π`: it is the
binary32 value nearest to `π`. -/
theorem pi_nearest : |((F32.toRat pi : ℚ) : ℝ) - Real.pi| < 1 / 2 ^ 23 := by
  rw [pi_eq, F32.toRat_fin]
  have h1 := Real.pi_gt_d20
  have h2 := Real.pi_lt_d20
  rw [abs_lt]
  constructor
  · norm_num at h1 h2 ⊢
    linarith
  · norm_num at h1 h2 ⊢
    linarith

/-- The `float` value of `(π * 2) / 8` is within `2^-25` of `2π/8`. -/
theorem angle_step_close :
    |((F32.toRat (F32.div (F32.mul pi (F32.lit 2 1)) (F32.ofNat 8)) : ℚ) : ℝ)
      - 2 * Real.pi / 8| < 1 / 2 ^ 25 := by
  rw [F32.angle_step, F32.toRat_fin]
  have h1 := Real.pi_gt_d20
  have h2 := Real.pi_lt_d20
  rw [abs_lt]
  constructor
  · norm_num at h1 h2 ⊢
    linarith
  · norm_num at h1 h2 ⊢
    linarith

end glm

namespace Spec

theorem angle_diff_0 (x : ℤ) (hx : x.natAbs ≤ 2 ^ 275) :
    |F32.toRat (angle 8 1 (.fin x)) - F32.toRat (angle 8 0 (.fin x))
        - F32.toRat (F32.div (F32.mul glm.pi (F32.lit 2 1)) (F32.ofNat 8))|
      ≤ 1 / 2 ^ 20 + |F32.toRat (.fin x)| / 2 ^ 23 := by
  unfold angle
  rw [F32.angle_step, F32.angle_base_0, F32.angle_base_1]
  exact F32.add_fin_diff_bound (D := 5 * 2 ^ 125) (by norm_num) (by norm_num) (by norm_num)
    (by norm_num) (by norm_num) hx

theorem angle_diff_1 (x : ℤ) (hx : x.natAbs ≤ 2 ^ 275) :
    |F32.toRat (angle 8 2 (.fin x)) - F32.toRat (angle 8 1 (.fin x))
        - F32.toRat (F32.div (F32.mul glm.pi (F32.lit 2 1)) (F32.ofNat 8))|
      ≤ 1 / 2 ^ 20 + |F32.toRat (.fin x)| / 2 ^ 23 := by
  unfold angle
  rw [F32.angle_step, F32.angle_base_1, F32.angle_base_2]
  exact F32.add_fin_diff_bound (D := 5 * 2 ^ 125) (by norm_num) (by norm_num) (by norm_num)
    (by norm_num) (by norm_num) hx

theorem angle_diff_2 (x : ℤ) (hx : x.natAbs ≤ 2 ^ 275) :
    |F32.toRat (angle 8 3 (.fin x)) - F32.toRat (angle 8 2 (.fin x))
        - F32.toRat (F32.div (F32.mul glm.pi (F32.lit 2 1)) (F32.ofNat 8))|
      ≤ 1 / 2 ^ 20 + |F32.toRat (.fin x)| / 2 ^ 23 := by
  unfold angle
  rw [F32.angle_step, F32.angle_base_2, F32.angle_base_3]
  exact F32.add_fin_diff_bound (D := 5 * 2 ^ 125) (by norm_num) (by norm_num) (by norm_num)
    (by norm_num) (by norm_num) hx

theorem angle_diff_3 (x : ℤ) (hx : x.natAbs ≤ 2 ^ 275) :
    |F32.toRat (angle 8 4 (.fin x)) - F32.toRat (angle 8 3 (.fin x))
        - F32.toRat (F32.div (F32.mul glm.pi (F32.lit 2 1)) (F32.ofNat 8))|
      ≤ 1 / 2 ^ 20 + |F32.toRat (.fin x)| / 2 ^ 23 := by
  unfold angle
  rw [F32.angle_step, F32.angle_base_3, F32.angle_base_4]
  exact F32.add_fin_diff_bound (D := 5 * 2 ^ 125) (by norm_num) (by norm_num) (by norm_num)
    (by norm_num) (by norm_num) hx

theorem angle_diff_4 (x : ℤ) (hx : x.natAbs ≤ 2 ^ 275) :
    |F32.toRat (angle 8 5 (.fin x)) - F32.toRat (angle 8 4 (.fin x))
        - F32.toRat (F32.div (F32.mul glm.pi (F32.lit 2 1)) (F32.ofNat 8))|
      ≤ 1 / 2 ^ 20 + |F32.toRat (.fin x)| / 2 ^ 23 := by
  unfold angle
  rw [F32.angle_step, F32.angle_base_4, F32.angle_base_5]
  exact F32.add_fin_diff_bound (D := 5 * 2 ^ 125) (by norm_num) (by norm_num) (by norm_num)
    (by norm_num) (by norm_num) hx

theorem angle_diff_5 (x : ℤ) (hx : x.natAbs ≤ 2 ^ 275) :
    |F32.toRat (angle 8 6 (.fin x)) - F32.toRat (angle 8 5 (.fin x))
        - F32.toRat (F32.div (F32.mul glm.pi (F32.lit 2 1)) (F32.ofNat 8))|
      ≤ 1 / 2 ^ 20 + |F32.toRat (.fin x)| / 2 ^ 23 := by
  unfold angle
  rw [F32.angle_step, F32.angle_base_5, F32.angle_base_6]
  exact F32.add_fin_diff_bound (D := 5 * 2 ^ 125) (by norm_num) (by norm_num) (by norm_num)
    (by norm_num) (by norm_num) hx

theorem angle_diff_6 (x : ℤ) (hx : x.natAbs ≤ 2 ^ 275) :
    |F32.toRat (angle 8 7 (.fin x)) - F32.toRat (angle 8 6 (.fin x))
        - F32.toRat (F32.div (F32.mul glm.pi (F32.lit 2 1)) (F32.ofNat 8))|
      ≤ 1 / 2 ^ 20 + |F32.toRat (.fin x)| / 2 ^ 23 := by
  unfold angle
  rw [F32.angle_step, F32.angle_base_6, F32.angle_base_7]
  exact F32.add_fin_diff_bound (D := 5 * 2 ^ 125) (by norm_num) (by norm_num) (by norm_num)
    (by norm_num) (by norm_num) hx

/-- For a finite rotation the angles of consecutive indices differ by the
binary32 value of `2π/8` up to the rounding of the two sums. -/
theorem angle_succ_sub (x : ℤ) (hx : x.natAbs ≤ 2 ^ 275) (j : Fin 7) :
    |F32.toRat (angle 8 (j.val + 1) (.fin x)) - F32.toRat (angle 8 j.val (.fin x))
        - F32.toRat (F32.div (F32.mul glm.pi (F32.lit 2 1)) (F32.ofNat 8))|
      ≤ 1 / 2 ^ 20 + |F32.toRat (.fin x)| / 2 ^ 23 := by
  fin_cases j
  · exact angle_diff_0 x hx
  · exact angle_diff_1 x hx
  · exact angle_diff_2 x hx
  · exact angle_diff_3 x hx
  · exact angle_diff_4 x hx
  · exact angle_diff_5 x hx
  · exact angle_diff_6 x hx

end Spec

/-- C1, as amended: for every rotation value and every index `i` in `0..7`,
`RefreshMeshes` gives the `i`-th alpha mesh and the `i`-th solid mesh the angle
`i * ((π * 2) / 8) + rotation`, evaluated in `float`, and sets the model transform
to `Rotate(angle, A) * Translate(T)` with `A = (-0.5, 1, 0)`, `T = (0, 0, 4)` for
the alpha group and `A = (0.5, 0.4, 0)`, `T = (0, 0, -2)` for the solid group.  The
angles of consecutive indices differ by `2π/8` up to rounding: for a finite
rotation of magnitude at most `2^126` the difference deviates from the `float`
value of `2π/8`, which is within `2^-25` of `2π/8`, by at most
`2^-20 + |rotation| * 2^-23`. -/
theorem C1_mesh_angles_and_transforms (g : GameInstance) (i : Fin 8) :
    ((GameInstance.RefreshMeshes g).alphaMeshes i).model
      = .mul
          (.rotate
            (F32.add (F32.mul (F32.ofNat i.val)
              (F32.div (F32.mul glm.pi (F32.lit 2 1)) (F32.ofNat 8))) g.rotation)
            ⟨F32.neg (F32.lit 5 10), F32.lit 1 1, F32.lit 0 1⟩)
          (.translate ⟨F32.lit 0 1, F32.lit 0 1, F32.lit 4 1⟩) ∧
    ((GameInstance.RefreshMeshes g).solidMeshes i).model
      = .mul
          (.rotate
            (F32.add (F32.mul (F32.ofNat i.val)
              (F32.div (F32.mul glm.pi (F32.lit 2 1)) (F32.ofNat 8))) g.rotation)
            ⟨F32.lit 5 10, F32.lit 4 10, F32.lit 0 1⟩)
          (.translate ⟨F32.lit 0 1, F32.lit 0 1, F32.neg (F32.lit 2 1)⟩) ∧
    ((GameInstance.RefreshMeshes g).alphaMeshes i).transparent
      = (g.alphaMeshes i).transparent ∧
    ((GameInstance.RefreshMeshes g).solidMeshes i).transparent
      = (g.solidMeshes i).transparent ∧
    (GameInstance.RefreshMeshes g).rotation = g.rotation ∧
    Spec.angle 8 i.val g.rotation
      = F32.add (F32.mul (F32.ofNat i.val)
          (F32.div (F32.mul glm.pi (F32.lit 2 1)) (F32.ofNat 8))) g.rotation ∧
    |((F32.toRat (F32.div (F32.mul glm.pi (F32.lit 2 1)) (F32.ofNat 8)) : ℚ) : ℝ)
      - 2 * Real.pi / 8| < 1 / 2 ^ 25 ∧
    (∀ x : ℤ, g.rotation = .fin x → x.natAbs ≤ 2 ^ 275 → ∀ j : Fin 7,
      |F32.toRat (Spec.angle 8 (j.val + 1) g.rotation)
          - F32.toRat (Spec.angle 8 j.val g.rotation)
          - F32.toRat (F32.div (F32.mul glm.pi (F32.lit 2 1)) (F32.ofNat 8))|
        ≤ 1 / 2 ^ 20 + |F32.toRat g.rotation| / 2 ^ 23) := by
  refine ⟨?_, ?_, ?_, ?_, rfl, rfl, glm.angle_step_close, ?_⟩
  · rw [GameInstance.RefreshMeshes_alpha]
    rfl
  · rw [GameInstance.RefreshMeshes_solid]
    rfl
  · rw [GameInstance.RefreshMeshes_alpha]
  · rw [GameInstance.RefreshMeshes_solid]
  · intro x hx hbound j
    rw [hx]
    exact Spec.angle_succ_sub x hbound j

/-- Witness of C1, as amended: the angles of the indices `2` and `3` at the
rotation `0` of the constructed instance. -/
theorem C1_mesh_angles_witness :
    |F32.toRat (Spec.angle 8 (2 + 1) (GameInstance.setup (Spec.startEnv 0)).rotation)
        - F32.toRat (Spec.angle 8 2 (GameInstance.setup (Spec.startEnv 0)).rotation)
        - F32.toRat (F32.div (F32.mul glm.pi (F32.lit 2 1)) (F32.ofNat 8))|
      ≤ 1 / 2 ^ 20 + |F32.toRat (GameInstance.setup (Spec.startEnv 0)).rotation| / 2 ^ 23 :=
  (C1_mesh_angles_and_transforms (GameInstance.setup (Spec.startEnv 0)) 0).2.2.2.2.2.2.2
    0 rfl (by decide) 2

/-- Counterexample to C1 as stated: at rotation `0` the alpha meshes of the
indices `2` and `3` get the angles `13176795 * 2^-23` and `2470649 * 2^-20`,
the `float` values of `2 * (2π/8)` and `3 * (2π/8)`; they differ by `2^-24` less
than the `float` value `13176795 * 2^-24` of `2π/8`, and by less than the real
number `2π/8`. -/
theorem C1_counterexample_difference_is_rounded :
    (GameInstance.setup (Spec.startEnv 0)).rotation = .fin 0 ∧
    ((GameInstance.RefreshMeshes (GameInstance.setup (Spec.startEnv 0))).alphaMeshes 2).model
      = .mul (.rotate (.fin (13176795 * 2 ^ 126)) GameInstance.rot1) GameInstance.trans1 ∧
    ((GameInstance.RefreshMeshes (GameInstance.setup (Spec.startEnv 0))).alphaMeshes 3).model
      = .mul (.rotate (.fin (2470649 * 2 ^ 129)) GameInstance.rot1) GameInstance.trans1 ∧
    F32.div (F32.mul glm.pi (F32.lit 2 1)) (F32.ofNat 8) = .fin (13176795 * 2 ^ 125) ∧
    F32.toRat (.fin (2470649 * 2 ^ 129)) - F32.toRat (.fin (13176795 * 2 ^ 126))
      = F32.toRat (.fin (13176795 * 2 ^ 125)) - 1 / 2 ^ 24 ∧
    F32.toRat (.fin (2470649 * 2 ^ 129)) - F32.toRat (.fin (13176795 * 2 ^ 126))
      ≠ F32.toRat (F32.div (F32.mul glm.pi (F32.lit 2 1)) (F32.ofNat 8)) ∧
    ((F32.toRat (.fin (2470649 * 2 ^ 129)) - F32.toRat (.fin (13176795 * 2 ^ 126)) : ℚ) : ℝ)
      < 2 * Real.pi / 8 := by
  refine ⟨rfl, by decide, by decide, by decide, ?_, ?_, ?_⟩
  · norm_num [F32.toRat]
  · rw [F32.angle_step]
    norm_num [F32.toRat]
  · have h1 := Real.pi_gt_d20
    rw [F32.toRat_fin, F32.toRat_fin]
    norm_num at h1 ⊢
    linarith
